import Mathlib

/-!
# Time-tracking service: users, tasks and the ranked task report

A shallow embedding of `main.go` (package `main`): the records `User`, `Task` and
`TaskWithTotalHours`, the request handlers `getUsers`, `getUserTasks`, `startTask`,
`stopTask`, `deleteUser`, `updateUser` and `addUser`, and the library calls they make.

Modelling conventions.

* The relational store behind the global `db` handle is an explicit value `DB` holding the
  rows of the two tables in table order, together with the two primary-key sequences.  The
  store is lossless and never fails: the `500` branches taken on a store error (connection
  loss and the like) are not reachable in the model.
* `time.Now()` is an explicit argument `now` of the handlers that read the clock.
* A handler returns the `Response` it writes (status code and JSON body) and, when it
  writes to the store, the new store.
* Path parameters that the handlers hand to the store as primary keys are taken as the
  integer they denote.  `startTask` parses its path parameter itself (`strconv.Atoi`), so
  there the parameter is the string.
* A request body is `none` when JSON decoding fails, and `some r` otherwise; the
  `binding:"required"` check is part of the handler.
* Go `int` is the 64-bit two's complement integer, written as an `Int` wrapped by `wrapInt`.
* A `float64` is the rational number it denotes; every arithmetic step rounds to the nearest
  53-bit value, ties to even.  All values met here are finite and far from the exponent
  limits.
-/

namespace TaskService

/-! ## Go integers and `strconv.Atoi` -/

/-- Largest Go `int`. -/
def maxInt : Int := 9223372036854775807

/-- Smallest Go `int`. -/
def minInt : Int := -9223372036854775808

/-- Two's complement wrap-around of a mathematical integer into the range of Go `int`. -/
def wrapInt (x : Int) : Int :=
  (x + 9223372036854775808) % 18446744073709551616 - 9223372036854775808

/-- Value of a decimal digit, `none` for any other character. -/
def digitValue (c : Char) : Option Nat :=
  if 48 ≤ c.toNat ∧ c.toNat ≤ 57 then some (c.toNat - 48) else none

/-- The two error kinds of package `strconv`. -/
inductive NumError where
  | ErrSyntax
  | ErrRange
deriving DecidableEq, Repr

/-- Largest `uint64`. -/
def maxUint64 : Nat := 18446744073709551615

/-- The digit loop of `strconv.ParseUint` for base 10 and 64 bits, with `n` the value read so
far: a non-digit is a syntax error with value 0; leaving the `uint64` range is a range error
with the largest value, reported where it happens (later characters are not looked at). -/
def parseUintLoop : List Char → Nat → Nat × Option NumError
  | [], n => (n, none)
  | c :: cs, n =>
    match digitValue c with
    | none => (0, some NumError.ErrSyntax)
    | some d =>
      if 1844674407370955162 ≤ n then (maxUint64, some NumError.ErrRange)
      else if maxUint64 < n * 10 + d then (maxUint64, some NumError.ErrRange)
      else parseUintLoop cs (n * 10 + d)

/-- Model of `strconv.ParseUint(s, 10, 64)`. -/
def ParseUint (s : List Char) : Nat × Option NumError :=
  if s = [] then (0, some NumError.ErrSyntax) else parseUintLoop s 0

/-- Model of `strconv.Atoi` (that is `ParseInt(s, 10, 0)`, with which its fast path for short
strings agrees): the `int` and the `error` returned. A syntax error comes with 0, a range
error with the nearest `int`. -/
def Atoi (s : String) : Int × Option NumError :=
  match s.toList with
  | [] => (0, some NumError.ErrSyntax)
  | c :: cs =>
    let neg : Bool := c = '-'
    let digits := if c = '+' ∨ c = '-' then cs else c :: cs
    match ParseUint digits with
    | (_, some NumError.ErrSyntax) => (0, some NumError.ErrSyntax)
    | (un, _) =>
      if !neg && decide (9223372036854775808 ≤ un) then (maxInt, some NumError.ErrRange)
      else if neg && decide (9223372036854775808 < un) then (minInt, some NumError.ErrRange)
      else (if neg then -(un : Int) else (un : Int), none)

/-! ## `time.Time`, `time.Duration` and `float64` -/

/-- An instant: nanoseconds elapsed since the zero `time.Time` (January 1, year 1, UTC).
Monotonic clock readings are left out: a time read back from the store carries none, so
`Sub` and the comparisons work on wall-clock instants. -/
structure Time where
  ns : Int
deriving DecidableEq, Repr

/-- The zero value of `time.Time`, which a `Task` carries in `End` until it is stopped. -/
def Time.zero : Time := ⟨0⟩

/-- Smallest `time.Duration` (an `int64` count of nanoseconds). -/
def minDuration : Int := -9223372036854775808

/-- Largest `time.Duration`. -/
def maxDuration : Int := 9223372036854775807

/-- Model of `Time.Sub`: the duration `t - u`, replaced by the smallest or largest duration
when the difference does not fit. -/
def Time.Sub (t u : Time) : Int :=
  let d := t.ns - u.ns
  if d < minDuration then minDuration
  else if maxDuration < d then maxDuration
  else d

/-- Nanoseconds in an hour, the constant `time.Hour`. -/
def Hour : Int := 3600000000000

/-- Nearest natural number to `a / d`, ties to the even one. -/
def roundHalfEven (a d : Nat) : Nat :=
  let q := a / d
  let r := a % d
  if 2 * r < d then q
  else if d < 2 * r then q + 1
  else if q % 2 = 0 then q else q + 1

/-- Halving loop behind `bitLog2`; `fuel` bounds the number of halvings. -/
def bitLog2Loop : Nat → Nat → Nat
  | 0, _ => 0
  | fuel + 1, n => if n < 2 then 0 else bitLog2Loop fuel (n / 2) + 1

/-- Position of the highest set bit of `n` (0 for `n = 0`): the `k` with
`2 ^ k ≤ n < 2 ^ (k + 1)`. -/
def bitLog2 (n : Nat) : Nat := bitLog2Loop n n

/-- The binary exponent of `a / d` for positive `a` and `d`: the `e` with
`2 ^ e ≤ a / d < 2 ^ (e + 1)`. It is the difference of the bit positions, or one less. -/
def binaryExponent (a d : Nat) : Int :=
  let e0 : Int := (bitLog2 a : Int) - (bitLog2 d : Int)
  if d * 2 ^ e0.toNat ≤ a * 2 ^ (-e0).toNat then e0 else e0 - 1

/-- The `float64` nearest to `n / d` (round to nearest, ties to even, 53 significant bits),
as a rational: the quotient is scaled by its binary exponent to a 53-bit integer, rounded,
and scaled back. -/
def roundFloat64 (n : Int) (d : Nat) : ℚ :=
  let a := n.natAbs
  if a = 0 then 0
  else
    let e := binaryExponent a d
    let m := roundHalfEven (a * 2 ^ (52 - e).toNat) (d * 2 ^ (e - 52).toNat)
    let v : ℚ := (m : ℚ) * (2 : ℚ) ^ (e - 52)
    if n < 0 then -v else v

/-- Rounding of an exact result to `float64`. -/
def f64 (q : ℚ) : ℚ := roundFloat64 q.num q.den

/-- Model of `Duration.Hours`: `hour := d / Hour; nsec := d % Hour;
return float64(hour) + float64(nsec)/(60*60*1e9)` with truncated integer division. Both
conversions are exact, the division and the sum round. -/
def Duration.Hours (d : Int) : ℚ :=
  let hour := Int.tdiv d Hour
  let nsec := Int.tmod d Hour
  f64 ((hour : ℚ) + f64 ((nsec : ℚ) / 3600000000000))

/-! ## Records -/

/-- Row of the `users` table. -/
structure User where
  ID : Int
  PassportNumber : String
deriving DecidableEq, Repr

/-- Row of the `tasks` table. -/
structure Task where
  ID : Int
  UserID : Int
  Name : String
  Start : Time
  End : Time
deriving DecidableEq, Repr

/-- A task together with its computed duration in hours (the embedded `Task` is the parent
structure). -/
structure TaskWithTotalHours extends Task where
  TotalHours : ℚ
deriving DecidableEq

/-- Body of `POST /user/:id/tasks/start`; `Name` is `binding:"required"`. -/
structure StartTaskRequest where
  Name : String
deriving DecidableEq, Repr

/-- Body of `POST /user/:id/tasks/stop`; `ID` is `binding:"required"`. -/
structure StopTaskRequest where
  ID : Int
deriving DecidableEq, Repr

/-- Body of `PUT /user/:id`. -/
structure UpdateUserRequest where
  PassportNumber : String
deriving DecidableEq, Repr

/-- Body of `POST /user`; `PassportNumber` is `binding:"required"`. -/
structure AddUserRequest where
  PassportNumber : String
deriving DecidableEq, Repr

/-- JSON body written by a handler. `error` and `message` carry the text of the `gin.H`
entry when the source spells it out; `bindError` is the text produced by the binding
library. -/
inductive Body where
  | error (text : String)
  | bindError
  | message (text : String)
  | users (rows : List User)
  | user (row : User)
  | task (row : Task)
  | tasksWithTotalHours (rows : List TaskWithTotalHours)
deriving DecidableEq

/-- What `c.JSON(status, body)` writes. -/
structure Response where
  status : Nat
  body : Body
deriving DecidableEq

/-- The constant `http.StatusOK`. -/
def StatusOK : Nat := 200

/-- The constant `http.StatusBadRequest`. -/
def StatusBadRequest : Nat := 400

/-- The constant `http.StatusNotFound`. -/
def StatusNotFound : Nat := 404

/-- The constant `http.StatusInternalServerError`. -/
def StatusInternalServerError : Nat := 500

/-! ## The store -/

/-- State of the relational store: both tables in table order, and the next value of each
auto-increment primary-key sequence. -/
structure DB where
  users : List User
  tasks : List Task
  nextUserID : Int
  nextTaskID : Int
deriving DecidableEq

/-- The store right after `AutoMigrate` on an empty database. -/
def DB.empty : DB := ⟨[], [], 1, 1⟩

/-- Model of `db.Create(&user)` for a record whose `ID` is zero: the store assigns the next
sequence value and appends the row; the record comes back with its `ID` filled in. -/
def DB.createUser (db : DB) (user : User) : User × DB :=
  let row : User := { user with ID := db.nextUserID }
  (row, { db with users := db.users ++ [row], nextUserID := db.nextUserID + 1 })

/-- Model of `db.Create(&task)` for a record whose `ID` is zero. -/
def DB.createTask (db : DB) (task : Task) : Task × DB :=
  let row : Task := { task with ID := db.nextTaskID }
  (row, { db with tasks := db.tasks ++ [row], nextTaskID := db.nextTaskID + 1 })

/-- Model of `db.First(&user, id)`: the row with that primary key, or `none` for
`ErrRecordNotFound`. -/
def DB.firstUser (db : DB) (id : Int) : Option User :=
  db.users.find? fun u => u.ID = id

/-- Model of `db.First(&task, id)`. -/
def DB.firstTask (db : DB) (id : Int) : Option Task :=
  db.tasks.find? fun t => t.ID = id

/-- Model of `db.Save(&user)` for a record with a non-zero primary key: every column of the
row with that key is overwritten; when no such row exists the record is inserted. -/
def DB.saveUser (db : DB) (user : User) : DB :=
  if db.users.any (fun u => u.ID = user.ID) then
    { db with users := db.users.map fun u => if u.ID = user.ID then user else u }
  else
    { db with users := db.users ++ [user] }

/-- Model of `db.Save(&task)` for a record with a non-zero primary key. -/
def DB.saveTask (db : DB) (task : Task) : DB :=
  if db.tasks.any (fun t => t.ID = task.ID) then
    { db with tasks := db.tasks.map fun t => if t.ID = task.ID then task else t }
  else
    { db with tasks := db.tasks ++ [task] }

/-- Model of `db.Delete(&User{}, id)`: the rows with that primary key are removed. Deleting
no row is not an error. -/
def DB.deleteUser (db : DB) (id : Int) : DB :=
  { db with users := db.users.filter fun u => u.ID ≠ id }

/-- The query `getUsers` builds: the optional `passport_number = ?` condition (empty when
absent), `Offset` and `Limit`. -/
structure UserQuery where
  passportNumber : String
  offset : Int
  limit : Int
deriving DecidableEq, Repr

/-- Model of `query.Offset(offset).Limit(limit).Find(&users)`. The `OFFSET` clause is
emitted only for a positive offset; `getUsers` always passes a limit of at least one. -/
def DB.findUsers (db : DB) (q : UserQuery) : List User :=
  let matching :=
    if q.passportNumber = "" then db.users
    else db.users.filter fun u => u.PassportNumber = q.passportNumber
  (matching.drop q.offset.toNat).take q.limit.toNat

/-- Model of `db.Where("user_id = ?", userID).Find(&tasks)`. -/
def DB.findTasks (db : DB) (userID : Int) : List Task :=
  db.tasks.filter fun t => t.UserID = userID

/-! ## `sort.Slice` -/

/-- Model of `sort.SliceIsSorted`: no element is `less` than its predecessor. -/
def SliceIsSorted {α : Type} (less : α → α → Bool) : List α → Bool
  | [] => true
  | [_] => true
  | a :: b :: rest => !less b a && SliceIsSorted less (b :: rest)

/-- The inner loop of `insertionSort_func`, `for j := i; j > a && data.Less(j, j-1); j--
{ data.Swap(j, j-1) }`, on the sorted part before index `i` read backwards (`data[i-1]`
first): `x = data[i]` moves past every element it is `less` than and stops at the first
it is not. -/
def insertionStep {α : Type} (less : α → α → Bool) (x : α) : List α → List α
  | [] => [x]
  | p :: ps => if less x p then p :: insertionStep less x ps else x :: p :: ps

/-- Model of `insertionSort_func` on a whole slice: the elements are taken from left to right
and each is moved into the part already sorted. -/
def insertionSort_func {α : Type} (less : α → α → Bool) (data : List α) : List α :=
  (data.foldl (fun sorted x => insertionStep less x sorted) []).reverse

/-- Model of `sort.Slice` (`pdqsort_func` of Go 1.19 and later). A slice of at most 12
elements is sorted by `insertionSort_func`, the first branch of `pdqsort_func`. For a longer
slice only the documented contract is used: the slice is rearranged (a permutation) so that
it is sorted by `less`; how the quicksort orders equal elements is not modelled ("the sort is
not guaranteed to be stable"), so there the result is a relation between the slice before
and after the call. -/
def SortSlice {α : Type} (less : α → α → Bool) (xs ys : List α) : Prop :=
  if xs.length ≤ 12 then ys = insertionSort_func less xs
  else ys.Perm xs ∧ SliceIsSorted less ys = true

instance {α : Type} [DecidableEq α] (less : α → α → Bool) (xs ys : List α) :
    Decidable (SortSlice less xs ys) :=
  inferInstanceAs (Decidable (if xs.length ≤ 12 then ys = insertionSort_func less xs
    else ys.Perm xs ∧ SliceIsSorted less ys = true))

/-! ## Handlers -/

/-- The loop body of `getUserTasks`: `duration := task.End.Sub(task.Start)`,
`totalHours := duration.Hours()`. -/
def withTotalHours (task : Task) : TaskWithTotalHours :=
  { toTask := task, TotalHours := Duration.Hours (task.End.Sub task.Start) }

/-- The slice `tasksWithTotalHours` of `getUserTasks` just before it is sorted: one entry
per retrieved task, in retrieval order. -/
def getUserTasksRows (db : DB) (userID : Int) : List TaskWithTotalHours :=
  (db.findTasks userID).map withTotalHours

/-- The comparison handed to `sort.Slice` in `getUserTasks`:
`tasksWithTotalHours[i].TotalHours > tasksWithTotalHours[j].TotalHours`. -/
def lessTotalHours (a b : TaskWithTotalHours) : Bool :=
  decide (a.TotalHours > b.TotalHours)

/-- The handler `getUserTasks` as a relation between the request and the response written:
status `200` with the slice `tasksWithTotalHours` after `sort.Slice`. -/
def getUserTasks (db : DB) (userID : Int) (resp : Response) : Prop :=
  resp.status = StatusOK ∧
    match resp.body with
    | .tasksWithTotalHours out => SortSlice lessTotalHours (getUserTasksRows db userID) out
    | _ => False

instance (db : DB) (userID : Int) (resp : Response) : Decidable (getUserTasks db userID resp) :=
  match resp with
  | ⟨status, Body.tasksWithTotalHours out⟩ =>
    inferInstanceAs (Decidable
      (status = StatusOK ∧ SortSlice lessTotalHours (getUserTasksRows db userID) out))
  | ⟨status, Body.error _⟩ => inferInstanceAs (Decidable (status = StatusOK ∧ False))
  | ⟨status, Body.bindError⟩ => inferInstanceAs (Decidable (status = StatusOK ∧ False))
  | ⟨status, Body.message _⟩ => inferInstanceAs (Decidable (status = StatusOK ∧ False))
  | ⟨status, Body.users _⟩ => inferInstanceAs (Decidable (status = StatusOK ∧ False))
  | ⟨status, Body.user _⟩ => inferInstanceAs (Decidable (status = StatusOK ∧ False))
  | ⟨status, Body.task _⟩ => inferInstanceAs (Decidable (status = StatusOK ∧ False))

/-- Model of `c.DefaultQuery(key, defaultValue)`: the value of the query parameter when the
key is present (even with an empty value), the default otherwise. -/
def DefaultQuery (value : Option String) (defaultValue : String) : String :=
  value.getD defaultValue

/-- The handler `getUsers`. `passportNumber` is `c.Query("passportNumber")` (empty when
absent); `page` and `pageSize` are the raw query parameters. Returns the response and the
query sent to the store, if one was sent. -/
def getUsers (db : DB) (passportNumber : String) (page pageSize : Option String) :
    Response × Option UserQuery :=
  let (page, err) := Atoi (DefaultQuery page "1")
  if err ≠ none ∨ page < 1 then
    (⟨StatusBadRequest, Body.error "Invalid page number"⟩, none)
  else
    let (pageSize, err) := Atoi (DefaultQuery pageSize "10")
    if err ≠ none ∨ pageSize < 1 then
      (⟨StatusBadRequest, Body.error "Invalid page size"⟩, none)
    else
      let offset := wrapInt (wrapInt (page - 1) * pageSize)
      let query : UserQuery := ⟨passportNumber, offset, pageSize⟩
      (⟨StatusOK, Body.users (db.findUsers query)⟩, some query)

/-- The handler `startTask`. `id` is the raw path parameter, which the handler converts with
`strconv.Atoi`, dropping the error. -/
def startTask (db : DB) (id : String) (body : Option StartTaskRequest) (now : Time) :
    Response × DB :=
  match body with
  | none => (⟨StatusBadRequest, Body.bindError⟩, db)
  | some req =>
    if req.Name = "" then (⟨StatusBadRequest, Body.bindError⟩, db)
    else
      let userID := (Atoi id).1
      let task : Task :=
        { ID := 0, UserID := userID, Name := req.Name, Start := now, End := Time.zero }
      let (task, db) := db.createTask task
      (⟨StatusOK, Body.task task⟩, db)

/-- The handler `stopTask`. -/
def stopTask (db : DB) (body : Option StopTaskRequest) (now : Time) : Response × DB :=
  match body with
  | none => (⟨StatusBadRequest, Body.bindError⟩, db)
  | some req =>
    if req.ID = 0 then (⟨StatusBadRequest, Body.bindError⟩, db)
    else
      match db.firstTask req.ID with
      | none => (⟨StatusInternalServerError, Body.error "Task not found"⟩, db)
      | some task =>
        let task := { task with End := now }
        (⟨StatusOK, Body.task task⟩, db.saveTask task)

/-- The handler `deleteUser`. -/
def deleteUser (db : DB) (userID : Int) : Response × DB :=
  (⟨StatusOK, Body.message "User deleted"⟩, db.deleteUser userID)

/-- The handler `updateUser`. -/
def updateUser (db : DB) (userID : Int) (body : Option UpdateUserRequest) : Response × DB :=
  match body with
  | none => (⟨StatusBadRequest, Body.bindError⟩, db)
  | some req =>
    match db.firstUser userID with
    | none => (⟨StatusNotFound, Body.error "User not found"⟩, db)
    | some user =>
      let user := { user with PassportNumber := req.PassportNumber }
      (⟨StatusOK, Body.user user⟩, db.saveUser user)

/-- The handler `addUser`. -/
def addUser (db : DB) (body : Option AddUserRequest) : Response × DB :=
  match body with
  | none => (⟨StatusBadRequest, Body.bindError⟩, db)
  | some req =>
    if req.PassportNumber = "" then (⟨StatusBadRequest, Body.bindError⟩, db)
    else
      let user : User := { ID := 0, PassportNumber := req.PassportNumber }
      let (user, db) := db.createUser user
      (⟨StatusOK, Body.user user⟩, db)

/-! ## The service as a state machine -/

/-- A request to one of the routes registered in `main`. -/
inductive Request where
  | getUsers (passportNumber : String) (page pageSize : Option String)
  | getUserTasks (userID : Int)
  | startTask (id : String) (body : Option StartTaskRequest)
  | stopTask (body : Option StopTaskRequest)
  | deleteUser (userID : Int)
  | updateUser (userID : Int) (body : Option UpdateUserRequest)
  | addUser (body : Option AddUserRequest)

/-- The store after the router has dispatched one request, `now` being the clock reading
during the request. The two `GET` handlers do not write. -/
def serve (db : DB) (now : Time) : Request → DB
  | Request.getUsers _ _ _ => db
  | Request.getUserTasks _ => db
  | Request.startTask id body => (startTask db id body now).2
  | Request.stopTask body => (stopTask db body now).2
  | Request.deleteUser userID => (deleteUser db userID).2
  | Request.updateUser userID body => (updateUser db userID body).2
  | Request.addUser body => (addUser db body).2

/-- The store after a sequence of requests, each with its clock reading. -/
def run (db : DB) : List (Time × Request) → DB
  | [] => db
  | (now, req) :: rest => run (serve db now req) rest

/-- Store states the service can reach from the empty store. -/
def Reachable (db : DB) : Prop :=
  ∃ history : List (Time × Request), run DB.empty history = db

/-- Primary-key discipline of the `tasks` table: the sequence is positive, every stored id
is positive and below the next sequence value, and no id occurs twice. -/
def DB.WF (db : DB) : Prop :=
  0 < db.nextTaskID ∧ (∀ t ∈ db.tasks, 0 < t.ID ∧ t.ID < db.nextTaskID) ∧
    (db.tasks.map fun t => t.ID).Nodup

/-! ## Sample stores -/

/-- A task of user 1 started at a fixed instant of the year 2024 and stopped `hours` whole
hours later. -/
def hourTask (id hours : Int) : Task :=
  ⟨id, 1, "task", ⟨63842000000000000000⟩, ⟨63842000000000000000 + hours * 3600000000000⟩⟩

/-- A store in which user 1 has tasks of 1, 3 and 2 hours (in this retrieval order) and user 2
has one task. -/
def reportDB : DB :=
  { users := [⟨1, "AB1234567"⟩, ⟨2, "CD7654321"⟩]
    tasks := [hourTask 1 1, hourTask 2 3,
      ⟨3, 2, "other", ⟨63842000000000000000⟩, ⟨63842018000000000000⟩⟩, hourTask 4 2]
    nextUserID := 3
    nextTaskID := 5 }

/-- The report on user 1 of `reportDB`: 3 hours, 2 hours, 1 hour. -/
def reportResponse : Response :=
  ⟨200, Body.tasksWithTotalHours
    [⟨hourTask 2 3, 3⟩, ⟨hourTask 4 2, 2⟩, ⟨hourTask 1 1, 1⟩]⟩

/-- A store in which user 1 has twelve tasks of one hour (ids 1 to 12) followed by one task of
two hours (id 13). -/
def tiesDB : DB :=
  { users := [⟨1, "AB1234567"⟩]
    tasks := [hourTask 1 1, hourTask 2 1, hourTask 3 1, hourTask 4 1, hourTask 5 1,
      hourTask 6 1, hourTask 7 1, hourTask 8 1, hourTask 9 1, hourTask 10 1, hourTask 11 1,
      hourTask 12 1, hourTask 13 2]
    nextUserID := 2
    nextTaskID := 14 }

/-- A descending arrangement of the tasks of `tiesDB` in which task 7 precedes task 1. It is
what one quicksort partitioning step around the middle element (index 6, the median of the
elements at indices 3, 6 and 9) leaves: the pivot is swapped to the front, the two-hour
task is swapped with index 1, and the pivot is swapped into index 1. The pattern-defeating
quicksort behind `sort.Slice` works this way on slices of more than 12 elements. -/
def tiesOutput : List TaskWithTotalHours :=
  [⟨hourTask 13 2, 2⟩, ⟨hourTask 7 1, 1⟩, ⟨hourTask 3 1, 1⟩, ⟨hourTask 4 1, 1⟩,
    ⟨hourTask 5 1, 1⟩, ⟨hourTask 6 1, 1⟩, ⟨hourTask 1 1, 1⟩, ⟨hourTask 8 1, 1⟩,
    ⟨hourTask 9 1, 1⟩, ⟨hourTask 10 1, 1⟩, ⟨hourTask 11 1, 1⟩, ⟨hourTask 12 1, 1⟩,
    ⟨hourTask 2 1, 1⟩]

/-- A store in which user 1 has three tasks: one hour (id 1), two hours (id 2) and again one
hour (id 3). -/
def smallTiesDB : DB :=
  { users := [⟨1, "AB1234567"⟩]
    tasks := [hourTask 1 1, hourTask 2 2, hourTask 3 1]
    nextUserID := 2
    nextTaskID := 4 }

/-- The report on user 1 of `smallTiesDB`: task 2, then the two one-hour tasks in retrieval
order. -/
def smallTiesOutput : List TaskWithTotalHours :=
  [⟨hourTask 2 2, 2⟩, ⟨hourTask 1 1, 1⟩, ⟨hourTask 3 1, 1⟩]

/-- A store in which user 1 has a running task (id 1, `End` still zero) retrieved before a
stopped task of one hour (id 2). -/
def runningDB : DB :=
  { users := [⟨1, "AB1234567"⟩]
    tasks := [⟨1, 1, "running", ⟨63842000000000000000⟩, Time.zero⟩, hourTask 2 1]
    nextUserID := 2
    nextTaskID := 3 }

/-- The slice reported for user 1 of `runningDB`: the stopped task first, then the running
task with the hours of the smallest duration. -/
def runningOutput : List TaskWithTotalHours :=
  [⟨hourTask 2 1, 1⟩,
    ⟨⟨1, 1, "running", ⟨63842000000000000000⟩, Time.zero⟩, -2750977865078623 / 1073741824⟩]

/-- The report on user 1 of `runningDB`. -/
def runningResponse : Response :=
  ⟨200, Body.tasksWithTotalHours runningOutput⟩

/-- Two requests: user 1 starts the task "writing", and stops it one hour later. -/
def sampleHistory : List (Time × Request) :=
  [(⟨63842000000000000000⟩, Request.startTask "1" (some ⟨"writing"⟩)),
    (⟨63842003600000000000⟩, Request.stopTask (some ⟨1⟩))]

/-- The store after `sampleHistory`: one stopped task. -/
def stoppedDB : DB :=
  { users := []
    tasks := [⟨1, 1, "writing", ⟨63842000000000000000⟩, ⟨63842003600000000000⟩⟩]
    nextUserID := 1
    nextTaskID := 2 }

/-! ## Rounding keeps the sign -/

theorem roundHalfEven_ge_div (a d : Nat) : a / d ≤ roundHalfEven a d := by
  unfold roundHalfEven
  simp only
  split_ifs <;> omega

theorem roundHalfEven_pos {a d : Nat} (hd : 0 < d) (h : d ≤ a) : 0 < roundHalfEven a d := by
  have h1 : 1 ≤ a / d := (Nat.one_le_div_iff hd).2 h
  have h2 := roundHalfEven_ge_div a d
  omega

theorem bitLog2Loop_eq (fuel : Nat) : ∀ n, n ≤ fuel → bitLog2Loop fuel n = Nat.log2 n := by
  induction fuel with
  | zero =>
    intro n hn
    have : n = 0 := by omega
    subst this
    simp [bitLog2Loop, Nat.log2]
  | succ fuel ih =>
    intro n hn
    rw [bitLog2Loop, Nat.log2]
    by_cases h : n < 2
    · rw [if_pos h, if_neg (by omega)]
    · rw [if_neg h, if_pos (by omega), ih (n / 2) (by omega)]

theorem bitLog2_eq (n : Nat) : bitLog2 n = Nat.log2 n :=
  bitLog2Loop_eq n n (le_refl n)

/-- The exponent chosen by `roundFloat64` is not above the binary logarithm of `a / d`. -/
theorem binaryExponent_le {a d : Nat} (ha : a ≠ 0) :
    d * 2 ^ (binaryExponent a d).toNat ≤ a * 2 ^ (-binaryExponent a d).toNat := by
  unfold binaryExponent
  simp only [bitLog2_eq]
  split_ifs with hc
  · exact hc
  · have h1 : 2 ^ Nat.log2 a ≤ a := Nat.log2_self_le ha
    have h2 : d < 2 ^ (Nat.log2 d + 1) := Nat.lt_log2_self
    rcases le_or_lt 1 ((Nat.log2 a : Int) - (Nat.log2 d : Int)) with h | h
    · have e1 : ((Nat.log2 a : Int) - (Nat.log2 d : Int) - 1).toNat =
          Nat.log2 a - Nat.log2 d - 1 := by omega
      have e2 : (-((Nat.log2 a : Int) - (Nat.log2 d : Int) - 1)).toNat = 0 := by omega
      have e3 : Nat.log2 d + 1 + (Nat.log2 a - Nat.log2 d - 1) = Nat.log2 a := by omega
      rw [e1, e2, pow_zero, mul_one]
      calc d * 2 ^ (Nat.log2 a - Nat.log2 d - 1)
          ≤ 2 ^ (Nat.log2 d + 1) * 2 ^ (Nat.log2 a - Nat.log2 d - 1) :=
            Nat.mul_le_mul_right _ h2.le
        _ = 2 ^ Nat.log2 a := by rw [← pow_add, e3]
        _ ≤ a := h1
    · have e1 : ((Nat.log2 a : Int) - (Nat.log2 d : Int) - 1).toNat = 0 := by omega
      have e2 : (-((Nat.log2 a : Int) - (Nat.log2 d : Int) - 1)).toNat =
          Nat.log2 d + 1 - Nat.log2 a := by omega
      have e3 : Nat.log2 a + (Nat.log2 d + 1 - Nat.log2 a) = Nat.log2 d + 1 := by omega
      rw [e1, e2, pow_zero, mul_one]
      calc d ≤ 2 ^ (Nat.log2 d + 1) := h2.le
        _ = 2 ^ Nat.log2 a * 2 ^ (Nat.log2 d + 1 - Nat.log2 a) := by rw [← pow_add, e3]
        _ ≤ a * 2 ^ (Nat.log2 d + 1 - Nat.log2 a) := Nat.mul_le_mul_right _ h1

/-- The exponent chosen by `roundFloat64` plus one is above the binary logarithm of `a / d`,
so the scaled quotient has at most 53 bits before rounding. -/
theorem binaryExponent_lt {a d : Nat} (hd : d ≠ 0) :
    a * 2 ^ (-(binaryExponent a d + 1)).toNat < d * 2 ^ (binaryExponent a d + 1).toNat := by
  unfold binaryExponent
  simp only [bitLog2_eq]
  split_ifs with hc
  · have h1 : a < 2 ^ (Nat.log2 a + 1) := Nat.lt_log2_self
    have h2 : 2 ^ Nat.log2 d ≤ d := Nat.log2_self_le hd
    rcases le_or_lt 0 ((Nat.log2 a : Int) - (Nat.log2 d : Int)) with h | h
    · have e1 : (-((Nat.log2 a : Int) - (Nat.log2 d : Int) + 1)).toNat = 0 := by omega
      have e2 : ((Nat.log2 a : Int) - (Nat.log2 d : Int) + 1).toNat =
          Nat.log2 a - Nat.log2 d + 1 := by omega
      have e3 : Nat.log2 d + (Nat.log2 a - Nat.log2 d + 1) = Nat.log2 a + 1 := by omega
      rw [e1, e2, pow_zero, mul_one]
      calc a < 2 ^ (Nat.log2 a + 1) := h1
        _ = 2 ^ Nat.log2 d * 2 ^ (Nat.log2 a - Nat.log2 d + 1) := by rw [← pow_add, e3]
        _ ≤ d * 2 ^ (Nat.log2 a - Nat.log2 d + 1) := Nat.mul_le_mul_right _ h2
    · have e1 : (-((Nat.log2 a : Int) - (Nat.log2 d : Int) + 1)).toNat =
          Nat.log2 d - Nat.log2 a - 1 := by omega
      have e2 : ((Nat.log2 a : Int) - (Nat.log2 d : Int) + 1).toNat = 0 := by omega
      have e3 : Nat.log2 a + 1 + (Nat.log2 d - Nat.log2 a - 1) = Nat.log2 d := by omega
      rw [e1, e2, pow_zero, mul_one]
      calc a * 2 ^ (Nat.log2 d - Nat.log2 a - 1)
          < 2 ^ (Nat.log2 a + 1) * 2 ^ (Nat.log2 d - Nat.log2 a - 1) :=
            Nat.mul_lt_mul_of_pos_right h1 (by positivity)
        _ = 2 ^ Nat.log2 d := by rw [← pow_add, e3]
        _ ≤ d := h2
  · have e1 : (Nat.log2 a : Int) - (Nat.log2 d : Int) - 1 + 1 =
        (Nat.log2 a : Int) - (Nat.log2 d : Int) := by ring
    rw [e1]
    exact not_le.1 hc

/-- The scaled quotient rounded by `roundFloat64` is at least one. -/
theorem scaled_le {a d : Nat} {e : Int} (h : d * 2 ^ e.toNat ≤ a * 2 ^ (-e).toNat) :
    d * 2 ^ (e - 52).toNat ≤ a * 2 ^ (52 - e).toNat := by
  rcases le_or_lt 52 e with he | he
  · have e1 : (-e).toNat = 0 := by omega
    have e2 : (52 - e).toNat = 0 := by omega
    have e3 : (e - 52).toNat ≤ e.toNat := by omega
    rw [e1, pow_zero, mul_one] at h
    rw [e2, pow_zero, mul_one]
    exact le_trans (Nat.mul_le_mul_left d (Nat.pow_le_pow_right (by norm_num) e3)) h
  · have e1 : (e - 52).toNat = 0 := by omega
    have e3 : (-e).toNat ≤ (52 - e).toNat := by omega
    rw [e1, pow_zero, mul_one]
    calc d ≤ d * 2 ^ e.toNat := Nat.le_mul_of_pos_right d (by positivity)
      _ ≤ a * 2 ^ (-e).toNat := h
      _ ≤ a * 2 ^ (52 - e).toNat :=
        Nat.mul_le_mul_left a (Nat.pow_le_pow_right (by norm_num) e3)

theorem roundFloat64_nonneg {n : Int} (d : Nat) (h : 0 ≤ n) : 0 ≤ roundFloat64 n d := by
  unfold roundFloat64
  simp only
  by_cases h0 : n.natAbs = 0
  · rw [if_pos h0]
  · rw [if_neg h0, if_neg (by omega)]
    exact mul_nonneg (Nat.cast_nonneg _) (zpow_nonneg (by norm_num) _)

theorem roundFloat64_neg {n : Int} {d : Nat} (hd : d ≠ 0) (h : n < 0) : roundFloat64 n d < 0 := by
  unfold roundFloat64
  simp only
  have ha : n.natAbs ≠ 0 := by omega
  rw [if_neg ha, if_pos h]
  have hpos := roundHalfEven_pos (a := n.natAbs * 2 ^ (52 - binaryExponent n.natAbs d).toNat)
    (d := d * 2 ^ (binaryExponent n.natAbs d - 52).toNat)
    (Nat.mul_pos (Nat.pos_of_ne_zero hd) (by positivity)) (scaled_le (binaryExponent_le ha))
  have hm : (0 : ℚ) < (roundHalfEven (n.natAbs * 2 ^ (52 - binaryExponent n.natAbs d).toNat)
      (d * 2 ^ (binaryExponent n.natAbs d - 52).toNat) : ℚ) := by exact_mod_cast hpos
  exact neg_neg_of_pos (mul_pos hm (zpow_pos (by norm_num) _))

theorem f64_nonneg {q : ℚ} (h : 0 ≤ q) : 0 ≤ f64 q :=
  roundFloat64_nonneg q.den (Rat.num_nonneg.2 h)

theorem f64_neg {q : ℚ} (h : q < 0) : f64 q < 0 :=
  roundFloat64_neg q.den_nz (Rat.num_neg.2 h)

theorem Hours_nonneg {d : Int} (h : 0 ≤ d) : 0 ≤ Duration.Hours d := by
  unfold Duration.Hours
  simp only
  have h1 : 0 ≤ Int.tdiv d Hour := Int.tdiv_nonneg h (by decide)
  have h2 : 0 ≤ Int.tmod d Hour := Int.tmod_nonneg _ h
  have h3 : (0 : ℚ) ≤ ((Int.tmod d Hour : Int) : ℚ) / 3600000000000 := by positivity
  have h4 := f64_nonneg h3
  exact f64_nonneg (add_nonneg (by exact_mod_cast h1) h4)

theorem Hours_neg {d : Int} (h : d < 0) : Duration.Hours d < 0 := by
  unfold Duration.Hours
  simp only
  have hH : (0 : Int) ≤ Hour := by decide
  have hd : d = -(-d) := by omega
  have h1 : Int.tdiv d Hour ≤ 0 := by
    rw [hd, Int.neg_tdiv]
    have := Int.tdiv_nonneg (show 0 ≤ -d by omega) hH
    omega
  have h2 : Int.tmod d Hour ≤ 0 := by
    rw [Int.tmod_def, hd, Int.neg_tdiv]
    have := Int.tmod_nonneg Hour (show 0 ≤ -d by omega)
    rw [Int.tmod_def] at this
    have e : Hour * -(- d).tdiv Hour = -(Hour * (- d).tdiv Hour) := by ring
    rw [e]
    omega
  have h3 := Int.tdiv_add_tmod d Hour
  apply f64_neg
  rcases lt_or_eq_of_le h2 with h4 | h4
  · have h5 : ((Int.tmod d Hour : Int) : ℚ) / 3600000000000 < 0 :=
      div_neg_of_neg_of_pos (by exact_mod_cast h4) (by norm_num)
    have h6 := f64_neg h5
    have h7 : ((Int.tdiv d Hour : Int) : ℚ) ≤ 0 := by exact_mod_cast h1
    linarith
  · rw [h4]
    have h5 : Int.tdiv d Hour < 0 := by
      rcases lt_or_eq_of_le h1 with h6 | h6
      · exact h6
      · rw [h4, h6] at h3; simp at h3; omega
    have h7 : ((Int.tdiv d Hour : Int) : ℚ) < 0 := by exact_mod_cast h5
    have h8 : f64 (((0 : Int) : ℚ) / 3600000000000) = 0 := by
      simp [f64, roundFloat64]
    rw [h8]
    linarith

/-! ## Accuracy of the rounding -/

theorem roundHalfEven_error {a d : Nat} (hd : 0 < d) :
    |((roundHalfEven a d : Nat) : ℚ) - (a : ℚ) / d| ≤ 1 / 2 := by
  have hdq : (0 : ℚ) < d := by exact_mod_cast hd
  have hmod : a % d < d := Nat.mod_lt a hd
  have key : (a : ℚ) = d * ((a / d : Nat) : ℚ) + ((a % d : Nat) : ℚ) := by
    exact_mod_cast (Nat.div_add_mod a d).symm
  have hr : ((a % d : Nat) : ℚ) < d := by exact_mod_cast hmod
  have hr0 : (0 : ℚ) ≤ ((a % d : Nat) : ℚ) := Nat.cast_nonneg _
  have hdiv : (a : ℚ) / d = ((a / d : Nat) : ℚ) + ((a % d : Nat) : ℚ) / d := by
    rw [key]; field_simp; ring
  rw [hdiv, abs_le]
  unfold roundHalfEven
  simp only
  split_ifs with h1 h2 h3
  · have : (2 : ℚ) * ((a % d : Nat) : ℚ) < d := by exact_mod_cast h1
    have h4 : ((a % d : Nat) : ℚ) / d ≤ 1 / 2 := by rw [div_le_iff₀ hdq]; linarith
    have h5 : 0 ≤ ((a % d : Nat) : ℚ) / d := div_nonneg hr0 hdq.le
    constructor <;> linarith
  · have : (d : ℚ) < 2 * ((a % d : Nat) : ℚ) := by exact_mod_cast h2
    have h4 : 1 / 2 ≤ ((a % d : Nat) : ℚ) / d := by rw [le_div_iff₀ hdq]; linarith
    have h5 : ((a % d : Nat) : ℚ) / d ≤ 1 := by rw [div_le_iff₀ hdq]; linarith
    push_cast
    constructor <;> linarith
  · have h6 : 2 * (a % d) = d := by omega
    have : (2 : ℚ) * ((a % d : Nat) : ℚ) = d := by exact_mod_cast h6
    have h4 : ((a % d : Nat) : ℚ) / d = 1 / 2 := by rw [div_eq_iff hdq.ne']; linarith
    constructor <;> linarith
  · have h6 : 2 * (a % d) = d := by omega
    have : (2 : ℚ) * ((a % d : Nat) : ℚ) = d := by exact_mod_cast h6
    have h4 : ((a % d : Nat) : ℚ) / d = 1 / 2 := by rw [div_eq_iff hdq.ne']; linarith
    push_cast
    constructor <;> linarith

theorem two_zpow_split (k : Int) :
    (2 : ℚ) ^ k = (2 : ℚ) ^ k.toNat / (2 : ℚ) ^ (-k).toNat := by
  rcases le_or_lt 0 k with h | h
  · have e1 : (-k).toNat = 0 := by omega
    rw [e1, pow_zero, div_one, ← zpow_natCast, Int.toNat_of_nonneg h]
  · have e1 : k.toNat = 0 := by omega
    have e2 : ((-k).toNat : Int) = -k := Int.toNat_of_nonneg (by omega)
    rw [e1, pow_zero, one_div, ← zpow_natCast, e2, zpow_neg, inv_inv]

/-- The rounding error of `roundFloat64` is at most 2^-53 of the exact quotient. -/
theorem roundFloat64_error (n : Int) {d : Nat} (hd : d ≠ 0) :
    |roundFloat64 n d - (n : ℚ) / d| ≤ |(n : ℚ) / d| / 2 ^ 53 := by
  have hdq : (0 : ℚ) < d := by exact_mod_cast Nat.pos_of_ne_zero hd
  unfold roundFloat64
  simp only
  by_cases h0 : n.natAbs = 0
  · have : n = 0 := by omega
    subst this
    simp
  · rw [if_neg h0]
    set a := n.natAbs with ha
    set e := binaryExponent a d with he
    have hpow : ∀ k : Nat, (0 : ℚ) < (2 : ℚ) ^ k := fun k => by positivity
    have hD : 0 < d * 2 ^ (e - 52).toNat := Nat.mul_pos (Nat.pos_of_ne_zero hd) (by positivity)
    have herr := roundHalfEven_error (a := a * 2 ^ (52 - e).toNat) hD
    have haq : (0 : ℚ) < a := by exact_mod_cast Nat.pos_of_ne_zero h0
    -- the scaled quotient
    have hscaled : ((a * 2 ^ (52 - e).toNat : Nat) : ℚ) / ((d * 2 ^ (e - 52).toNat : Nat) : ℚ) =
        (a : ℚ) / d * (2 : ℚ) ^ (52 - e) := by
      have e1 : (e - 52).toNat = (-(52 - e)).toNat := by congr 1; ring
      rw [two_zpow_split (52 - e), ← e1]
      push_cast
      field_simp
    -- the exponent is below the quotient
    have hle : (2 : ℚ) ^ e ≤ (a : ℚ) / d := by
      have h1 := binaryExponent_le (a := a) (d := d) h0
      rw [← he] at h1
      have h2 : (d : ℚ) * 2 ^ e.toNat ≤ a * 2 ^ (-e).toNat := by exact_mod_cast h1
      rw [two_zpow_split e, div_le_div_iff₀ (hpow _) hdq]
      linarith
    have hv : |((roundHalfEven (a * 2 ^ (52 - e).toNat) (d * 2 ^ (e - 52).toNat) : Nat) : ℚ) *
        (2 : ℚ) ^ (e - 52) - (a : ℚ) / d| ≤ (a : ℚ) / d / 2 ^ 53 := by
      have hz : (0 : ℚ) < (2 : ℚ) ^ (e - 52) := zpow_pos (by norm_num) _
      have e2 : (a : ℚ) / d = (a : ℚ) / d * (2 : ℚ) ^ (52 - e) * (2 : ℚ) ^ (e - 52) := by
        rw [mul_assoc, ← zpow_add₀ (by norm_num : (2 : ℚ) ≠ 0)]
        simp
      rw [hscaled] at herr
      have e3 : ((roundHalfEven (a * 2 ^ (52 - e).toNat) (d * 2 ^ (e - 52).toNat) : Nat) : ℚ) *
          (2 : ℚ) ^ (e - 52) - (a : ℚ) / d =
          (((roundHalfEven (a * 2 ^ (52 - e).toNat) (d * 2 ^ (e - 52).toNat) : Nat) : ℚ) -
            (a : ℚ) / d * (2 : ℚ) ^ (52 - e)) * (2 : ℚ) ^ (e - 52) := by
        rw [sub_mul, ← e2]
      rw [e3, abs_mul, abs_of_pos hz]
      have e4 : (2 : ℚ) ^ (e - 52) = (2 : ℚ) ^ e / 2 ^ 52 := by
        rw [zpow_sub₀ (by norm_num : (2 : ℚ) ≠ 0)]; norm_num
      calc _ ≤ 1 / 2 * (2 : ℚ) ^ (e - 52) := mul_le_mul_of_nonneg_right herr hz.le
        _ = (2 : ℚ) ^ e / 2 ^ 53 := by rw [e4]; ring
        _ ≤ (a : ℚ) / d / 2 ^ 53 := div_le_div_of_nonneg_right hle (by positivity)
    by_cases hn : n < 0
    · rw [if_pos hn]
      have e5 : (n : ℚ) = -(a : ℚ) := by
        have : (n : Int) = -(a : Int) := by omega
        rw [this]; push_cast; ring
      rw [e5, neg_div, abs_neg, abs_of_pos (div_pos haq hdq)]
      rw [show -(((roundHalfEven (a * 2 ^ (52 - e).toNat) (d * 2 ^ (e - 52).toNat) : Nat) : ℚ) *
          (2 : ℚ) ^ (e - 52)) - -((a : ℚ) / d) =
          -(((roundHalfEven (a * 2 ^ (52 - e).toNat) (d * 2 ^ (e - 52).toNat) : Nat) : ℚ) *
          (2 : ℚ) ^ (e - 52) - (a : ℚ) / d) by ring, abs_neg]
      exact hv
    · rw [if_neg hn]
      have e5 : (n : ℚ) = (a : ℚ) := by
        have : (n : Int) = (a : Int) := by omega
        rw [this]; push_cast; ring
      rw [e5, abs_of_pos (div_pos haq hdq)]
      exact hv

theorem f64_error (q : ℚ) : |f64 q - q| ≤ |q| / 2 ^ 53 := by
  have := roundFloat64_error q.num q.den_nz
  rwa [Rat.num_div_den] at this

/-- Truncated division splits a duration into whole hours and a rest of the same sign. -/
theorem tdiv_tmod_Hour (d : Int) :
    (d : ℚ) / 3600000000000 =
        ((Int.tdiv d Hour : Int) : ℚ) + ((Int.tmod d Hour : Int) : ℚ) / 3600000000000 ∧
      (0 ≤ d → 0 ≤ Int.tdiv d Hour ∧ 0 ≤ Int.tmod d Hour) ∧
      (d < 0 → Int.tdiv d Hour ≤ 0 ∧ Int.tmod d Hour ≤ 0) := by
  have hH : (0 : Int) ≤ Hour := by decide
  refine ⟨?_, ?_, ?_⟩
  · have h := Int.tdiv_add_tmod d Hour
    have h2 : (d : ℚ) = (3600000000000 : ℚ) * ((Int.tdiv d Hour : Int) : ℚ) +
        ((Int.tmod d Hour : Int) : ℚ) := by
      have : (Hour : ℚ) = 3600000000000 := by simp [Hour]
      rw [← this]
      exact_mod_cast h.symm
    conv_lhs => rw [h2]
    field_simp
    ring
  · intro h
    exact ⟨Int.tdiv_nonneg h hH, Int.tmod_nonneg _ h⟩
  · intro h
    have hd : d = -(-d) := by omega
    constructor
    · rw [hd, Int.neg_tdiv]
      have := Int.tdiv_nonneg (show 0 ≤ -d by omega) hH
      omega
    · rw [Int.tmod_def, hd, Int.neg_tdiv]
      have := Int.tmod_nonneg Hour (show 0 ≤ -d by omega)
      rw [Int.tmod_def] at this
      have e : Hour * -(- d).tdiv Hour = -(Hour * (- d).tdiv Hour) := by ring
      rw [e]
      omega

/-- `Duration.Hours` is the exact number of hours up to a relative error of 2^-51. -/
theorem Hours_error (d : Int) :
    |Duration.Hours d - (d : ℚ) / 3600000000000| ≤ |(d : ℚ) / 3600000000000| / 2 ^ 51 := by
  obtain ⟨hsplit, hpos, hneg⟩ := tdiv_tmod_Hour d
  unfold Duration.Hours
  simp only
  have hy := f64_error (((Int.tmod d Hour : Int) : ℚ) / 3600000000000)
  have hz := f64_error (((Int.tdiv d Hour : Int) : ℚ) +
    f64 (((Int.tmod d Hour : Int) : ℚ) / 3600000000000))
  rw [hsplit]
  generalize f64 (((Int.tdiv d Hour : Int) : ℚ) +
    f64 (((Int.tmod d Hour : Int) : ℚ) / 3600000000000)) = z at hz ⊢
  rcases le_or_lt 0 d with h | h
  · obtain ⟨h1, h2⟩ := hpos h
    have k1 : (0 : ℚ) ≤ ((Int.tdiv d Hour : Int) : ℚ) := by exact_mod_cast h1
    have k2 : (0 : ℚ) ≤ ((Int.tmod d Hour : Int) : ℚ) / 3600000000000 :=
      div_nonneg (by exact_mod_cast h2) (by norm_num)
    have k3 := f64_nonneg k2
    generalize f64 (((Int.tmod d Hour : Int) : ℚ) / 3600000000000) = y at hy hz k3 ⊢
    generalize ((Int.tmod d Hour : Int) : ℚ) / 3600000000000 = r at hy k2 ⊢
    generalize ((Int.tdiv d Hour : Int) : ℚ) = w at hz k1 ⊢
    rw [abs_of_nonneg k2] at hy
    rw [abs_of_nonneg (add_nonneg k1 k3)] at hz
    rw [abs_of_nonneg (add_nonneg k1 k2)]
    rw [abs_le] at hy hz ⊢
    constructor <;> norm_num at hy hz ⊢ <;> linarith
  · obtain ⟨h1, h2⟩ := hneg h
    have k1 : ((Int.tdiv d Hour : Int) : ℚ) ≤ 0 := by exact_mod_cast h1
    have k2 : ((Int.tmod d Hour : Int) : ℚ) / 3600000000000 ≤ 0 :=
      div_nonpos_of_nonpos_of_nonneg (by exact_mod_cast h2) (by norm_num)
    have k3 : f64 (((Int.tmod d Hour : Int) : ℚ) / 3600000000000) ≤ 0 := by
      rcases lt_or_eq_of_le k2 with k | k
      · exact (f64_neg k).le
      · rw [k]; simp [f64, roundFloat64]
    generalize f64 (((Int.tmod d Hour : Int) : ℚ) / 3600000000000) = y at hy hz k3 ⊢
    generalize ((Int.tmod d Hour : Int) : ℚ) / 3600000000000 = r at hy k2 ⊢
    generalize ((Int.tdiv d Hour : Int) : ℚ) = w at hz k1 ⊢
    rw [abs_of_nonpos k2] at hy
    rw [abs_of_nonpos (add_nonpos k1 k3)] at hz
    rw [abs_of_nonpos (add_nonpos k1 k2)]
    rw [abs_le] at hy hz ⊢
    constructor <;> norm_num at hy hz ⊢ <;> linarith

theorem Sub_exact {t u : Time} (h1 : minDuration ≤ t.ns - u.ns) (h2 : t.ns - u.ns ≤ maxDuration) :
    t.Sub u = t.ns - u.ns := by
  unfold Time.Sub
  simp only
  rw [if_neg (by omega), if_neg (by omega)]

/-! ## The ranked task report -/

theorem lessTotalHours_eq_false {a b : TaskWithTotalHours} :
    lessTotalHours b a = false ↔ a.TotalHours ≥ b.TotalHours := by
  simp [lessTotalHours]

theorem sliceIsSorted_iff_chain {α : Type} (less : α → α → Bool) (xs : List α) :
    SliceIsSorted less xs = true ↔ xs.Chain' fun a b => less b a = false := by
  induction xs with
  | nil => simp [SliceIsSorted]
  | cons a rest ih =>
    cases rest with
    | nil => simp [SliceIsSorted]
    | cons b rest =>
      rw [List.chain'_cons, ← ih]
      simp [SliceIsSorted]

/-- For the comparison of `getUserTasks`, sorted in the sense of `sort.SliceIsSorted` means:
every entry has at least the hours of every later entry. -/
theorem sliceIsSorted_lessTotalHours (out : List TaskWithTotalHours) :
    SliceIsSorted lessTotalHours out = true ↔
      out.Pairwise fun a b => a.TotalHours ≥ b.TotalHours := by
  rw [sliceIsSorted_iff_chain]
  have e : (fun a b : TaskWithTotalHours => lessTotalHours b a = false) =
      fun a b => a.TotalHours ≥ b.TotalHours := by
    funext a b; exact propext lessTotalHours_eq_false
  rw [e]
  haveI : IsTrans TaskWithTotalHours (fun a b => a.TotalHours ≥ b.TotalHours) :=
    ⟨fun _ _ _ hab hbc => le_trans hbc hab⟩
  exact List.chain'_iff_pairwise

theorem getUserTasks_iff (db : DB) (userID : Int) (resp : Response) :
    getUserTasks db userID resp ↔
      ∃ out, resp = ⟨StatusOK, Body.tasksWithTotalHours out⟩ ∧
        SortSlice lessTotalHours (getUserTasksRows db userID) out := by
  obtain ⟨status, body⟩ := resp
  unfold getUserTasks
  cases body <;> simp
  constructor
  · rintro ⟨h1, h2⟩; exact ⟨_, ⟨h1, rfl⟩, h2⟩
  · rintro ⟨out, ⟨h1, rfl⟩, h2⟩; exact ⟨h1, h2⟩

theorem insertionStep_perm {α : Type} (less : α → α → Bool) (x : α) (sorted : List α) :
    (insertionStep less x sorted).Perm (x :: sorted) := by
  induction sorted with
  | nil => exact List.Perm.refl _
  | cons p ps ih =>
    unfold insertionStep
    split_ifs
    · exact (ih.cons p).trans (List.Perm.swap x p ps)
    · exact List.Perm.refl _

theorem foldl_insertionStep_perm {α : Type} (less : α → α → Bool) (data : List α) :
    ∀ sorted : List α,
      (data.foldl (fun sorted x => insertionStep less x sorted) sorted).Perm
        (data.reverse ++ sorted) := by
  induction data with
  | nil => intro sorted; exact List.Perm.refl _
  | cons x rest ih =>
    intro sorted
    rw [List.foldl_cons, List.reverse_cons, List.append_assoc]
    exact (ih _).trans ((insertionStep_perm less x sorted).append_left _)

theorem insertionSort_func_perm {α : Type} (less : α → α → Bool) (data : List α) :
    (insertionSort_func less data).Perm data := by
  unfold insertionSort_func
  have h := foldl_insertionStep_perm less data []
  rw [List.append_nil] at h
  exact (List.reverse_perm _).trans (h.trans (List.reverse_perm _))

/-- The part already sorted, read backwards, has its hours in ascending order; the inner
loop keeps it so. -/
theorem insertionStep_sorted (x : TaskWithTotalHours) (sorted : List TaskWithTotalHours)
    (h : sorted.Pairwise fun a b => a.TotalHours ≤ b.TotalHours) :
    (insertionStep lessTotalHours x sorted).Pairwise fun a b => a.TotalHours ≤ b.TotalHours := by
  induction sorted with
  | nil => exact List.pairwise_singleton _ _
  | cons p ps ih =>
    unfold insertionStep
    rw [List.pairwise_cons] at h
    split_ifs with hc
    · have hlt : p.TotalHours < x.TotalHours := by simpa [lessTotalHours] using hc
      rw [List.pairwise_cons]
      refine ⟨?_, ih h.2⟩
      intro b hb
      rcases List.mem_cons.1 ((insertionStep_perm lessTotalHours x ps).subset hb) with rfl | hb
      · exact hlt.le
      · exact h.1 b hb
    · have hle : x.TotalHours ≤ p.TotalHours := by simpa [lessTotalHours] using hc
      rw [List.pairwise_cons, List.pairwise_cons]
      refine ⟨?_, h.1, h.2⟩
      intro b hb
      rcases List.mem_cons.1 hb with rfl | hb
      · exact hle
      · exact hle.trans (h.1 b hb)

theorem foldl_insertionStep_sorted (data : List TaskWithTotalHours) :
    ∀ sorted : List TaskWithTotalHours,
      (sorted.Pairwise fun a b => a.TotalHours ≤ b.TotalHours) →
      (data.foldl (fun sorted x => insertionStep lessTotalHours x sorted) sorted).Pairwise
        fun a b => a.TotalHours ≤ b.TotalHours := by
  induction data with
  | nil => intro sorted h; exact h
  | cons x rest ih =>
    intro sorted h
    exact ih _ (insertionStep_sorted x sorted h)

theorem insertionSort_func_sorted (data : List TaskWithTotalHours) :
    (insertionSort_func lessTotalHours data).Pairwise fun a b => a.TotalHours ≥ b.TotalHours := by
  unfold insertionSort_func
  rw [List.pairwise_reverse]
  exact foldl_insertionStep_sorted data [] List.Pairwise.nil

/-- The inner loop never moves an element past one with the same hours. -/
theorem insertionStep_filter (hours : ℚ) (x : TaskWithTotalHours)
    (sorted : List TaskWithTotalHours) :
    (insertionStep lessTotalHours x sorted).filter (fun e => e.TotalHours = hours) =
      (x :: sorted).filter fun e => e.TotalHours = hours := by
  induction sorted with
  | nil => rfl
  | cons p ps ih =>
    unfold insertionStep
    split_ifs with hc
    · have hlt : p.TotalHours < x.TotalHours := by simpa [lessTotalHours] using hc
      rw [List.filter_cons, ih]
      by_cases hx : x.TotalHours = hours
      · have hp : ¬ p.TotalHours = hours := fun hp => absurd (hp.trans hx.symm) (ne_of_lt hlt)
        simp [List.filter_cons, hx, hp]
      · simp [List.filter_cons, hx]
    · rfl

theorem foldl_insertionStep_filter (hours : ℚ) (data : List TaskWithTotalHours) :
    ∀ sorted : List TaskWithTotalHours,
      (data.foldl (fun sorted x => insertionStep lessTotalHours x sorted) sorted).filter
          (fun e => e.TotalHours = hours) =
        (data.reverse ++ sorted).filter fun e => e.TotalHours = hours := by
  induction data with
  | nil => intro sorted; rfl
  | cons x rest ih =>
    intro sorted
    rw [List.foldl_cons, ih, List.reverse_cons, List.append_assoc, List.filter_append,
      List.filter_append, insertionStep_filter]
    rfl

/-- Insertion sort is stable: the entries with any given hours keep their order. -/
theorem insertionSort_func_stable (hours : ℚ) (data : List TaskWithTotalHours) :
    (insertionSort_func lessTotalHours data).filter (fun e => e.TotalHours = hours) =
      data.filter fun e => e.TotalHours = hours := by
  unfold insertionSort_func
  rw [List.filter_reverse, foldl_insertionStep_filter, List.append_nil, List.filter_reverse,
    List.reverse_reverse]

/-- Whatever `sort.Slice` leaves is a permutation of the slice, sorted by the comparison. -/
theorem sortSlice_sound {rows out : List TaskWithTotalHours}
    (h : SortSlice lessTotalHours rows out) :
    out.Perm rows ∧ SliceIsSorted lessTotalHours out = true := by
  unfold SortSlice at h
  split_ifs at h
  · subst h
    exact ⟨insertionSort_func_perm _ rows,
      (sliceIsSorted_lessTotalHours _).2 (insertionSort_func_sorted rows)⟩
  · exact h

/-- Some ordering of the slice is a result of `sort.Slice`, so `getUserTasks` always has a
response to write. -/
theorem sortSlice_exists (rows : List TaskWithTotalHours) :
    ∃ out, SortSlice lessTotalHours rows out := by
  by_cases hlen : rows.length ≤ 12
  · exact ⟨insertionSort_func lessTotalHours rows, by unfold SortSlice; rw [if_pos hlen]⟩
  · haveI : IsTrans TaskWithTotalHours (fun a b => a.TotalHours ≥ b.TotalHours) :=
      ⟨fun _ _ _ hab hbc => le_trans hbc hab⟩
    haveI : IsTotal TaskWithTotalHours (fun a b => a.TotalHours ≥ b.TotalHours) :=
      ⟨fun a b => le_total b.TotalHours a.TotalHours⟩
    refine ⟨rows.insertionSort (fun a b => a.TotalHours ≥ b.TotalHours), ?_⟩
    unfold SortSlice
    rw [if_neg hlen]
    refine ⟨List.perm_insertionSort _ rows, ?_⟩
    rw [sliceIsSorted_lessTotalHours]
    exact List.sorted_insertionSort _ rows

/-- Every response of `getUserTasks` is status 200 with a permutation of the computed slice,
sorted by the comparison. -/
theorem getUserTasks_spec {db : DB} {userID : Int} {resp : Response}
    (h : getUserTasks db userID resp) :
    ∃ out, resp = ⟨StatusOK, Body.tasksWithTotalHours out⟩ ∧
      out.Perm (getUserTasksRows db userID) ∧ SliceIsSorted lessTotalHours out = true := by
  obtain ⟨out, rfl, hs⟩ := (getUserTasks_iff db userID resp).1 h
  exact ⟨out, rfl, sortSlice_sound hs⟩

theorem mem_getUserTasksRows {db : DB} {userID : Int} {e : TaskWithTotalHours}
    (h : e ∈ getUserTasksRows db userID) :
    e.toTask ∈ db.findTasks userID ∧ e.TotalHours = Duration.Hours (e.End.Sub e.Start) := by
  unfold getUserTasksRows at h
  obtain ⟨t, ht, rfl⟩ := List.mem_map.1 h
  exact ⟨ht, rfl⟩

theorem map_toTask_getUserTasksRows (db : DB) (userID : Int) :
    (getUserTasksRows db userID).map (fun e => e.toTask) = db.findTasks userID := by
  unfold getUserTasksRows
  rw [List.map_map]
  exact List.map_id _

theorem getUserTasks_pairwise {db : DB} {userID : Int} {resp : Response}
    {out : List TaskWithTotalHours} (h : getUserTasks db userID resp)
    (hb : resp.body = Body.tasksWithTotalHours out) :
    resp.status = StatusOK ∧ out.Perm (getUserTasksRows db userID) ∧
      out.Pairwise fun a b => a.TotalHours ≥ b.TotalHours := by
  obtain ⟨out2, rfl, hperm, hsorted⟩ := getUserTasks_spec h
  simp only [Body.tasksWithTotalHours.injEq] at hb
  subst hb
  exact ⟨rfl, hperm, (sliceIsSorted_lessTotalHours _).1 hsorted⟩

/-- C1: every response of `getUserTasks` carries the tasks in descending order of
`TotalHours`: each entry has at least the hours of the entry right after it. -/
theorem getUserTasks_sorted_descending (db : DB) (userID : Int) (resp : Response)
    (h : getUserTasks db userID resp) :
    ∃ out, resp.body = Body.tasksWithTotalHours out ∧
      out.Chain' fun earlier later => earlier.TotalHours ≥ later.TotalHours := by
  obtain ⟨out, rfl, _, hsorted⟩ := getUserTasks_spec h
  refine ⟨out, rfl, ?_⟩
  have := (sliceIsSorted_iff_chain _ _).1 hsorted
  exact this.imp fun {_ _} h => lessTotalHours_eq_false.1 h

/-- When the retrieved tasks have pairwise different hours, the response is determined: it is
the one descending arrangement. -/
theorem getUserTasks_unique {db : DB} {userID : Int} {resp : Response}
    {expected : List TaskWithTotalHours} (h : getUserTasks db userID resp)
    (hperm : expected.Perm (getUserTasksRows db userID))
    (hsorted : expected.Pairwise fun a b => a.TotalHours > b.TotalHours) :
    resp = ⟨StatusOK, Body.tasksWithTotalHours expected⟩ := by
  obtain ⟨out, rfl, hout, hs⟩ := getUserTasks_spec h
  have hge := (sliceIsSorted_lessTotalHours out).1 hs
  have hp : out.Perm expected := hout.trans hperm.symm
  have hne0 : expected.Pairwise fun a b => a.TotalHours ≠ b.TotalHours :=
    hsorted.imp fun {_ _} hab => ne_of_gt hab
  have hne : out.Pairwise fun a b => a.TotalHours ≠ b.TotalHours :=
    (List.Perm.pairwise_iff (R := fun a b : TaskWithTotalHours => a.TotalHours ≠ b.TotalHours)
      (fun {_ _} hab => Ne.symm hab) hp).2 hne0
  have hgt : out.Pairwise fun a b => a.TotalHours > b.TotalHours :=
    (hge.and hne).imp fun {_ _} hab => lt_of_le_of_ne hab.1 (Ne.symm hab.2)
  haveI : IsAntisymm TaskWithTotalHours (fun a b => a.TotalHours > b.TotalHours) :=
    ⟨fun a b hab hba => absurd hab (not_lt.2 hba.le)⟩
  rw [List.eq_of_perm_of_sorted hp hgt hsorted]

/-- C1 at the store with durations 1h, 3h, 2h: the response 3h, 2h, 1h is the one the
handler writes, and it is descending. -/
theorem getUserTasks_sorted_descending_witness :
    getUserTasks reportDB 1 reportResponse ∧
      (∀ resp, getUserTasks reportDB 1 resp → resp = reportResponse) ∧
      ∃ out, reportResponse.body = Body.tasksWithTotalHours out ∧
        out.Chain' fun earlier later => earlier.TotalHours ≥ later.TotalHours :=
  ⟨by decide!,
    fun _ h => getUserTasks_unique h (by decide!) (by decide!),
    getUserTasks_sorted_descending reportDB 1 reportResponse (by decide!)⟩

theorem Sub_saturated (t u : Time) :
    (t.ns - u.ns < minDuration → t.Sub u = minDuration) ∧
      (maxDuration < t.ns - u.ns → t.Sub u = maxDuration) := by
  unfold Time.Sub minDuration maxDuration
  simp only
  constructor
  · intro h; rw [if_pos h]
  · intro h; rw [if_neg (by omega), if_pos h]

/-- C2 fails: in the store with a running task started in 2024 the only response gives that
task `TotalHours` = -2750977865078623 / 2^30 (about -2562047.79, the hours of the smallest
duration), while its (End - Start) in hours is -159605000 / 9 (about -17733888.9). -/
theorem getUserTasks_hours_counterexample :
    getUserTasks runningDB 1 runningResponse ∧
      (∀ resp, getUserTasks runningDB 1 resp → resp = runningResponse) ∧
      runningOutput[1]? =
        some ⟨⟨1, 1, "running", ⟨63842000000000000000⟩, Time.zero⟩,
          -2750977865078623 / 1073741824⟩ ∧
      ((Time.zero.ns - 63842000000000000000 : Int) : ℚ) / 3600000000000 = -159605000 / 9 ∧
      (-2750977865078623 / 1073741824 : ℚ) ≠ -159605000 / 9 :=
  ⟨by decide!, fun _ h => getUserTasks_unique h (by decide!) (by decide!), by decide!,
    by norm_num [Time.zero], by norm_num⟩

/-- C2 as amended: `getUserTasks` always writes a response; every response has status 200 and
carries a permutation of the retrieved tasks (same length, each task unchanged), each with
`TotalHours` equal to `Duration.Hours` of `End.Sub(Start)`. Whenever End - Start fits a
`Duration` this is the exact quotient (End - Start) / 1h up to the `float64` rounding
(relative error at most 2^-51); below or above that range it is the hours of the smallest
or largest duration. A user without tasks gets the empty sequence. -/
theorem getUserTasks_permutation (db : DB) (userID : Int) :
    (∃ resp, getUserTasks db userID resp) ∧
      ∀ resp, getUserTasks db userID resp →
        resp.status = 200 ∧
          ∃ out, resp.body = Body.tasksWithTotalHours out ∧
            (out.map fun e => e.toTask).Perm (db.findTasks userID) ∧
            out.length = (db.findTasks userID).length ∧
            (∀ e ∈ out, e.TotalHours = Duration.Hours (e.End.Sub e.Start)) ∧
            (∀ e ∈ out, minDuration ≤ e.End.ns - e.Start.ns →
              e.End.ns - e.Start.ns ≤ maxDuration →
              |e.TotalHours - ((e.End.ns - e.Start.ns : Int) : ℚ) / 3600000000000| ≤
                |((e.End.ns - e.Start.ns : Int) : ℚ) / 3600000000000| / 2 ^ 51) ∧
            (∀ e ∈ out, e.End.ns - e.Start.ns < minDuration →
              e.TotalHours = Duration.Hours minDuration) ∧
            (∀ e ∈ out, maxDuration < e.End.ns - e.Start.ns →
              e.TotalHours = Duration.Hours maxDuration) ∧
            (db.findTasks userID = [] → out = []) := by
  constructor
  · obtain ⟨out, hout⟩ := sortSlice_exists (getUserTasksRows db userID)
    exact ⟨⟨StatusOK, Body.tasksWithTotalHours out⟩,
      (getUserTasks_iff db userID _).2 ⟨out, rfl, hout⟩⟩
  · intro resp h
    obtain ⟨out, rfl, hperm, _⟩ := getUserTasks_spec h
    refine ⟨rfl, out, rfl, ?_, ?_, ?_, ?_, ?_, ?_, ?_⟩
    · rw [← map_toTask_getUserTasksRows]
      exact hperm.map _
    · rw [hperm.length_eq, getUserTasksRows, List.length_map]
    · intro e he
      exact (mem_getUserTasksRows (hperm.subset he)).2
    · intro e he h1 h2
      rw [(mem_getUserTasksRows (hperm.subset he)).2, Sub_exact h1 h2]
      exact Hours_error _
    · intro e he h1
      rw [(mem_getUserTasksRows (hperm.subset he)).2, (Sub_saturated _ _).1 h1]
    · intro e he h1
      rw [(mem_getUserTasksRows (hperm.subset he)).2, (Sub_saturated _ _).2 h1]
    · intro hnil
      have : getUserTasksRows db userID = [] := by rw [getUserTasksRows, hnil]; rfl
      rw [this] at hperm
      exact hperm.eq_nil

/-- C3 fails: at the store with twelve one-hour tasks followed by a two-hour task, the
handler may write `tiesOutput`. Task 1 is retrieved first and task 7 seventh, both have one
hour, yet task 7 stands at index 1 of the output and task 1 at index 6. -/
theorem getUserTasks_ties_counterexample :
    getUserTasks tiesDB 1 ⟨200, Body.tasksWithTotalHours tiesOutput⟩ ∧
      (getUserTasksRows tiesDB 1)[0]? = some ⟨hourTask 1 1, 1⟩ ∧
      (getUserTasksRows tiesDB 1)[6]? = some ⟨hourTask 7 1, 1⟩ ∧
      tiesOutput[1]? = some ⟨hourTask 7 1, 1⟩ ∧
      tiesOutput[6]? = some ⟨hourTask 1 1, 1⟩ ∧
      tiesOutput.indexOf ⟨hourTask 7 1, 1⟩ < tiesOutput.indexOf ⟨hourTask 1 1, 1⟩ := by
  decide!

/-- C3 as amended: in every response of `getUserTasks`, an entry with more hours stands
before an entry with fewer; and when at most 12 tasks are retrieved, the entries with equal
hours stand in retrieval order (for each value of `TotalHours`, the entries having it are
the same sequence before and after sorting). Nothing is stated about the order of equal
hours among more than 12 tasks. -/
theorem getUserTasks_ties (db : DB) (userID : Int) (resp : Response)
    (out : List TaskWithTotalHours) (h : getUserTasks db userID resp)
    (hb : resp.body = Body.tasksWithTotalHours out) :
    (∀ (i j : Nat) (hi : i < out.length) (hj : j < out.length),
        out[i].TotalHours > out[j].TotalHours → i < j) ∧
      ((db.findTasks userID).length ≤ 12 →
        ∀ hours : ℚ, out.filter (fun e => e.TotalHours = hours) =
          (getUserTasksRows db userID).filter fun e => e.TotalHours = hours) := by
  obtain ⟨_, _, hp⟩ := getUserTasks_pairwise h hb
  constructor
  · intro i j hi hj hlt
    rw [List.pairwise_iff_getElem] at hp
    by_contra hij
    rcases Nat.lt_or_ge j i with hji | hji
    · have := hp j i hj hi hji
      exact absurd hlt (not_lt.2 this)
    · have : i = j := by omega
      subst this
      exact lt_irrefl _ hlt
  · intro hlen hours
    obtain ⟨out2, rfl, hs⟩ := (getUserTasks_iff db userID resp).1 h
    simp only [Body.tasksWithTotalHours.injEq] at hb
    subst hb
    have hlen2 : (getUserTasksRows db userID).length ≤ 12 := by
      rw [getUserTasksRows, List.length_map]; exact hlen
    unfold SortSlice at hs
    rw [if_pos hlen2] at hs
    rw [hs]
    exact insertionSort_func_stable hours _

/-- C3 as amended, on the store with tasks of 1h, 2h, 1h: the two-hour task comes first and
the one-hour tasks 1 and 3 keep their order. -/
theorem getUserTasks_ties_witness :
    getUserTasks smallTiesDB 1 ⟨200, Body.tasksWithTotalHours smallTiesOutput⟩ ∧
      (∀ (i j : Nat) (hi : i < smallTiesOutput.length) (hj : j < smallTiesOutput.length),
        smallTiesOutput[i].TotalHours > smallTiesOutput[j].TotalHours → i < j) ∧
      ((smallTiesDB.findTasks 1).length ≤ 12 →
        ∀ hours : ℚ, smallTiesOutput.filter (fun e => e.TotalHours = hours) =
          (getUserTasksRows smallTiesDB 1).filter fun e => e.TotalHours = hours) :=
  ⟨by decide!,
    getUserTasks_ties smallTiesDB 1 ⟨200, Body.tasksWithTotalHours smallTiesOutput⟩
      smallTiesOutput (by decide!) rfl⟩

theorem Sub_nonneg {t u : Time} (h : u.ns ≤ t.ns) : 0 ≤ t.Sub u := by
  unfold Time.Sub minDuration maxDuration
  simp only
  split_ifs <;> omega

theorem Sub_zero_eq {u : Time} (h : Time.zero.ns < u.ns) :
    Time.zero.Sub u = max (Time.zero.ns - u.ns) minDuration ∧ Time.zero.Sub u < 0 ∧
      (9223372036854775808 ≤ u.ns → Time.zero.Sub u = minDuration) := by
  unfold Time.Sub minDuration maxDuration
  simp only [Time.zero] at h ⊢
  refine ⟨?_, ?_, ?_⟩
  · split_ifs <;> omega
  · split_ifs <;> omega
  · intro h2
    split_ifs <;> omega

/-- C10: in a response of `getUserTasks`, a running task (`End` zero, `Start` later) has
the duration `zero.Sub(Start)`, the negative difference clamped at the smallest duration
(reached once `Start` is 2^63 ns, about 292 years, after the zero time), hence negative
`TotalHours`; and every running task stands after every stopped task whose `End` is not
before its `Start`. -/
theorem getUserTasks_running_ranked_last (db : DB) (userID : Int) (resp : Response)
    (out : List TaskWithTotalHours) (h : getUserTasks db userID resp)
    (hb : resp.body = Body.tasksWithTotalHours out) :
    (∀ e ∈ out, e.End = Time.zero → Time.zero.ns < e.Start.ns →
        e.TotalHours = Duration.Hours (Time.zero.Sub e.Start) ∧
        Time.zero.Sub e.Start = max (Time.zero.ns - e.Start.ns) minDuration ∧
        Time.zero.Sub e.Start < 0 ∧
        (9223372036854775808 ≤ e.Start.ns → Time.zero.Sub e.Start = minDuration) ∧
        e.TotalHours < 0) ∧
      ∀ (i j : Nat) (hi : i < out.length) (hj : j < out.length),
        (out[i].End = Time.zero ∧ Time.zero.ns < out[i].Start.ns) →
        (out[j].End ≠ Time.zero ∧ out[j].Start.ns ≤ out[j].End.ns) → j < i := by
  obtain ⟨_, hperm, hsorted⟩ := getUserTasks_pairwise h hb
  have hrun : ∀ e ∈ out, e.End = Time.zero → Time.zero.ns < e.Start.ns →
      e.TotalHours = Duration.Hours (Time.zero.Sub e.Start) ∧ e.TotalHours < 0 := by
    intro e he hz hs
    have h1 := (mem_getUserTasksRows (hperm.subset he)).2
    rw [hz] at h1
    exact ⟨h1, h1 ▸ Hours_neg (Sub_zero_eq hs).2.1⟩
  constructor
  · intro e he hz hs
    obtain ⟨h1, h2, h3⟩ := Sub_zero_eq hs
    exact ⟨(hrun e he hz hs).1, h1, h2, h3, (hrun e he hz hs).2⟩
  · intro i j hi hj hri hsj
    have hi_neg := (hrun _ (List.getElem_mem hi) hri.1 hri.2).2
    have hj_nonneg : 0 ≤ out[j].TotalHours := by
      rw [(mem_getUserTasksRows (hperm.subset (List.getElem_mem hj))).2]
      exact Hours_nonneg (Sub_nonneg hsj.2)
    rw [List.pairwise_iff_getElem] at hsorted
    by_contra hji
    rcases Nat.lt_or_ge i j with hij | hij
    · have := hsorted i j hi hj hij
      linarith
    · have : i = j := by omega
      subst this
      exact hsj.1 hri.1

/-- C10 at a store where the running task is retrieved first: the response lists the
stopped task first and gives the running task the hours of the smallest duration. -/
theorem getUserTasks_running_ranked_last_witness :
    getUserTasks runningDB 1 runningResponse ∧
      ((∀ e ∈ runningOutput, e.End = Time.zero → Time.zero.ns < e.Start.ns →
          e.TotalHours = Duration.Hours (Time.zero.Sub e.Start) ∧
          Time.zero.Sub e.Start = max (Time.zero.ns - e.Start.ns) minDuration ∧
          Time.zero.Sub e.Start < 0 ∧
          (9223372036854775808 ≤ e.Start.ns → Time.zero.Sub e.Start = minDuration) ∧
          e.TotalHours < 0) ∧
        ∀ (i j : Nat) (hi : i < runningOutput.length) (hj : j < runningOutput.length),
          (runningOutput[i].End = Time.zero ∧ Time.zero.ns < runningOutput[i].Start.ns) →
          (runningOutput[j].End ≠ Time.zero ∧
            runningOutput[j].Start.ns ≤ runningOutput[j].End.ns) → j < i) :=
  ⟨by decide!,
    getUserTasks_running_ranked_last runningDB 1 runningResponse runningOutput (by decide!) rfl⟩

/-! ## Listing users -/

theorem wrapInt_of_fits {x : Int} (h0 : 0 ≤ x) (h1 : x ≤ maxInt) : wrapInt x = x := by
  unfold wrapInt
  unfold maxInt at h1
  omega

/-- C4: `getUsers` answers 400 without querying the store when `page` or `pageSize` does not
parse as an `int` (`strconv.Atoi` returns an error) or parses to a value below 1; when both
parse to values of at least 1 it queries the store and answers 200. The defaults for absent
parameters, "1" and "10", parse to 1 and 10. -/
theorem getUsers_invalid_argument (db : DB) (passportNumber : String)
    (page pageSize : Option String) :
    (((Atoi (DefaultQuery page "1")).2 ≠ none ∨ (Atoi (DefaultQuery page "1")).1 ≤ 0 ∨
        (Atoi (DefaultQuery pageSize "10")).2 ≠ none ∨
        (Atoi (DefaultQuery pageSize "10")).1 ≤ 0) →
      (getUsers db passportNumber page pageSize).1.status = StatusBadRequest ∧
        (∃ text, (getUsers db passportNumber page pageSize).1.body = Body.error text) ∧
        (getUsers db passportNumber page pageSize).2 = none) ∧
    (((Atoi (DefaultQuery page "1")).2 = none ∧ 1 ≤ (Atoi (DefaultQuery page "1")).1 ∧
        (Atoi (DefaultQuery pageSize "10")).2 = none ∧
        1 ≤ (Atoi (DefaultQuery pageSize "10")).1) →
      (getUsers db passportNumber page pageSize).1.status = StatusOK ∧
        ∃ query, (getUsers db passportNumber page pageSize).2 = some query ∧
          (getUsers db passportNumber page pageSize).1.body =
            Body.users (db.findUsers query)) ∧
    Atoi (DefaultQuery none "1") = (1, none) ∧ Atoi (DefaultQuery none "10") = (10, none) := by
  refine ⟨?_, ?_, by decide, by decide⟩
  · intro h
    unfold getUsers
    rcases hp : Atoi (DefaultQuery page "1") with ⟨p, ep⟩
    rcases hs : Atoi (DefaultQuery pageSize "10") with ⟨q, eq⟩
    rw [hp, hs] at h
    simp only at h ⊢
    by_cases h1 : ep ≠ none ∨ p < 1
    · rw [if_pos h1]; exact ⟨rfl, ⟨_, rfl⟩, rfl⟩
    · rw [if_neg h1]
      have h2 : eq ≠ none ∨ q < 1 := by
        rcases h with h | h | h | h
        · exact absurd (Or.inl h) h1
        · exact absurd (Or.inr (by omega)) h1
        · exact Or.inl h
        · exact Or.inr (by omega)
      rw [if_pos h2]; exact ⟨rfl, ⟨_, rfl⟩, rfl⟩
  · intro h
    unfold getUsers
    rcases hp : Atoi (DefaultQuery page "1") with ⟨p, ep⟩
    rcases hs : Atoi (DefaultQuery pageSize "10") with ⟨q, eq⟩
    rw [hp, hs] at h
    simp only at h ⊢
    obtain ⟨h1, h2, h3, h4⟩ := h
    rw [if_neg (by rintro (h | h); exact h h1; omega),
      if_neg (by rintro (h | h); exact h h3; omega)]
    exact ⟨rfl, _, rfl, rfl⟩

/-- C4 on sample requests: no parameters, page "0", a page that is not a number, a page
beyond the range of `int`, and a negative page size. -/
theorem getUsers_invalid_argument_examples :
    (getUsers reportDB "" none none =
        (⟨200, Body.users reportDB.users⟩, some ⟨"", 0, 10⟩) ∧
      getUsers reportDB "" (some "0") none =
        (⟨400, Body.error "Invalid page number"⟩, none) ∧
      getUsers reportDB "" (some "one") none =
        (⟨400, Body.error "Invalid page number"⟩, none) ∧
      getUsers reportDB "" (some "9223372036854775808") none =
        (⟨400, Body.error "Invalid page number"⟩, none) ∧
      getUsers reportDB "" (some "2") (some "-5") =
        (⟨400, Body.error "Invalid page size"⟩, none)) ∧
    ((getUsers reportDB "" (some "0") none).1.status = StatusBadRequest ∧
      (∃ text, (getUsers reportDB "" (some "0") none).1.body = Body.error text) ∧
      (getUsers reportDB "" (some "0") none).2 = none) ∧
    ((getUsers reportDB "" (some "2") (some "1")).1.status = StatusOK ∧
      ∃ query, (getUsers reportDB "" (some "2") (some "1")).2 = some query ∧
        (getUsers reportDB "" (some "2") (some "1")).1.body =
          Body.users (reportDB.findUsers query)) :=
  ⟨by decide,
    (getUsers_invalid_argument reportDB "" (some "0") none).1 (by decide),
    (getUsers_invalid_argument reportDB "" (some "2") (some "1")).2.1 (by decide)⟩

/-- C5 fails: page 2^62 + 1 with page size 2 are accepted, yet the offset sent to the store
is -2^63, not (page - 1) * pageSize = 2^63, and the page returned holds the first two users
although fewer than 2^63 users are stored. -/
theorem getUsers_offset_counterexample :
    Atoi "4611686018427387905" = (4611686018427387905, none) ∧ Atoi "2" = (2, none) ∧
      getUsers reportDB "" (some "4611686018427387905") (some "2") =
        (⟨200, Body.users [⟨1, "AB1234567"⟩, ⟨2, "CD7654321"⟩]⟩,
          some ⟨"", -9223372036854775808, 2⟩) ∧
      ((4611686018427387905 : Int) - 1) * 2 = 9223372036854775808 ∧
      (reportDB.users.drop 9223372036854775808).take 2 = [] := by
  decide

/-- C5 as amended: for `page` and `pageSize` of at least 1 whose product
(page - 1) * pageSize fits an `int`, the store is queried with exactly that offset and with
limit `pageSize`; the page returned skips that many matching users and holds at most
`pageSize` of them. -/
theorem getUsers_offset_limit (db : DB) (passportNumber : String)
    (pageParam pageSizeParam : Option String) (page pageSize : Int)
    (hpage : Atoi (DefaultQuery pageParam "1") = (page, none))
    (hsize : Atoi (DefaultQuery pageSizeParam "10") = (pageSize, none))
    (h1 : 1 ≤ page) (h2 : 1 ≤ pageSize) (hfit : (page - 1) * pageSize ≤ maxInt) :
    ∃ rows, getUsers db passportNumber pageParam pageSizeParam =
        (⟨StatusOK, Body.users rows⟩,
          some ⟨passportNumber, (page - 1) * pageSize, pageSize⟩) ∧
      rows = ((if passportNumber = "" then db.users
          else db.users.filter fun u => u.PassportNumber = passportNumber).drop
            ((page - 1) * pageSize).toNat).take pageSize.toNat ∧
      (rows.length : Int) ≤ pageSize := by
  have h3 : page - 1 ≤ (page - 1) * pageSize :=
    le_mul_of_one_le_right (by omega) h2
  have h4 : 0 ≤ (page - 1) * pageSize := mul_nonneg (by omega) (by omega)
  have e1 : wrapInt (page - 1) = page - 1 := wrapInt_of_fits (by omega) (by omega)
  have e2 : wrapInt ((page - 1) * pageSize) = (page - 1) * pageSize := wrapInt_of_fits h4 hfit
  refine ⟨_, ?_, rfl, ?_⟩
  · unfold getUsers
    rw [hpage, hsize]
    simp only
    rw [if_neg (by rintro (h | h); exact h rfl; omega),
      if_neg (by rintro (h | h); exact h rfl; omega), e1, e2]
    rfl
  · rw [List.length_take]
    have := min_le_left pageSize.toNat
      ((if passportNumber = "" then db.users
        else db.users.filter fun u => u.PassportNumber = passportNumber).drop
          ((page - 1) * pageSize).toNat).length
    omega

/-- C5 as amended, on the second page of size 1 of the sample store. -/
theorem getUsers_offset_limit_witness :
    Atoi (DefaultQuery (some "2") "1") = (2, none) ∧
      Atoi (DefaultQuery (some "1") "10") = (1, none) ∧
      ∃ rows, getUsers reportDB "" (some "2") (some "1") =
          (⟨StatusOK, Body.users rows⟩, some ⟨"", (2 - 1) * 1, 1⟩) ∧
        rows = ((if "" = "" then reportDB.users
            else reportDB.users.filter fun u => u.PassportNumber = "").drop
              (((2 : Int) - 1) * 1).toNat).take (1 : Int).toNat ∧
        (rows.length : Int) ≤ 1 :=
  ⟨by decide, by decide,
    getUsers_offset_limit reportDB "" (some "2") (some "1") 2 1 (by decide) (by decide)
      (by decide) (by decide) (by decide)⟩

/-! ## The store invariant -/

theorem WF_empty : DB.empty.WF := by
  refine ⟨by decide, ?_, ?_⟩
  · intro t ht; cases ht
  · exact List.nodup_nil

theorem firstTask_some {db : DB} {id : Int} {t : Task} (h : db.firstTask id = some t) :
    t ∈ db.tasks ∧ t.ID = id := by
  unfold DB.firstTask at h
  exact ⟨List.mem_of_find?_eq_some h, by simpa using List.find?_some h⟩

theorem firstTask_none {db : DB} {id : Int} (h : ∀ t ∈ db.tasks, t.ID ≠ id) :
    db.firstTask id = none := by
  unfold DB.firstTask
  rw [List.find?_eq_none]
  intro t ht
  simpa using h t ht

theorem eq_of_mem_of_ID_eq {db : DB} (hwf : db.WF) {a b : Task} (ha : a ∈ db.tasks)
    (hb : b ∈ db.tasks) (h : a.ID = b.ID) : a = b :=
  List.inj_on_of_nodup_map hwf.2.2 ha hb h

theorem firstTask_of_mem {db : DB} (hwf : db.WF) {t : Task} (ht : t ∈ db.tasks) :
    db.firstTask t.ID = some t := by
  cases h : db.firstTask t.ID with
  | none =>
    unfold DB.firstTask at h
    rw [List.find?_eq_none] at h
    have := h t ht
    simp at this
  | some x =>
    obtain ⟨hx, hid⟩ := firstTask_some h
    rw [eq_of_mem_of_ID_eq hwf hx ht hid]

/-- Saving a stored task with a new `End` rewrites the row with its id and nothing else. -/
theorem saveTask_stored {db : DB} {t : Task} (ht : t ∈ db.tasks) (now : Time) :
    db.saveTask { t with End := now } =
      { db with tasks := db.tasks.map fun x => if x.ID = t.ID then { t with End := now } else x } := by
  unfold DB.saveTask
  have : (db.tasks.any fun x => decide (x.ID = t.ID)) = true := by
    rw [List.any_eq_true]; exact ⟨t, ht, by simp⟩
  simp only [this, if_true]

theorem map_ID_replace (tasks : List Task) (t : Task) (now : Time) :
    (tasks.map fun x => if x.ID = t.ID then { t with End := now } else x).map (fun x => x.ID) =
      tasks.map fun x => x.ID := by
  rw [List.map_map]
  apply List.map_congr_left
  intro x _
  simp only [Function.comp]
  split_ifs with h
  · exact h.symm
  · rfl

theorem WF_createTask {db : DB} (hwf : db.WF) (task : Task) : (db.createTask task).2.WF := by
  obtain ⟨h0, h1, h2⟩ := hwf
  refine ⟨by simp only [DB.createTask]; omega, ?_, ?_⟩
  · intro t ht
    simp only [DB.createTask, List.mem_append, List.mem_singleton] at ht ⊢
    rcases ht with ht | rfl
    · have := h1 t ht; omega
    · simp only; omega
  · simp only [DB.createTask, List.map_append, List.map_cons, List.map_nil]
    rw [List.nodup_append]
    refine ⟨h2, List.nodup_singleton _, ?_⟩
    intro a ha hb
    rw [List.mem_singleton] at hb
    obtain ⟨t, ht, rfl⟩ := List.mem_map.1 ha
    have := h1 t ht
    omega

theorem WF_stopTask {db : DB} (hwf : db.WF) (body : Option StopTaskRequest) (now : Time) :
    (stopTask db body now).2.WF := by
  unfold stopTask
  cases body with
  | none => exact hwf
  | some req =>
    simp only
    split_ifs with h0
    · exact hwf
    · cases h : db.firstTask req.ID with
      | none => exact hwf
      | some t =>
        simp only
        obtain ⟨ht, _⟩ := firstTask_some h
        rw [saveTask_stored ht]
        obtain ⟨h0, h1, h2⟩ := hwf
        refine ⟨h0, ?_, ?_⟩
        · intro x hx
          simp only [List.mem_map] at hx
          obtain ⟨y, hy, rfl⟩ := hx
          split_ifs with hc
          · simp only; exact h1 t ht
          · exact h1 y hy
        · simp only
          rw [map_ID_replace]; exact h2

theorem WF_startTask {db : DB} (hwf : db.WF) (id : String) (body : Option StartTaskRequest)
    (now : Time) : (startTask db id body now).2.WF := by
  unfold startTask
  cases body with
  | none => exact hwf
  | some req =>
    simp only
    split_ifs with h0
    · exact hwf
    · exact WF_createTask hwf _

theorem WF_serve {db : DB} (hwf : db.WF) (now : Time) (req : Request) : (serve db now req).WF := by
  cases req with
  | getUsers _ _ _ => exact hwf
  | getUserTasks _ => exact hwf
  | startTask id body => exact WF_startTask hwf id body now
  | stopTask body => exact WF_stopTask hwf body now
  | deleteUser userID => exact hwf
  | updateUser userID body =>
    simp only [serve, updateUser]
    cases body with
    | none => exact hwf
    | some r =>
      simp only
      cases db.firstUser userID with
      | none => exact hwf
      | some u =>
        simp only [DB.saveUser]
        split_ifs <;> exact hwf
  | addUser body =>
    simp only [serve, addUser]
    cases body with
    | none => exact hwf
    | some r =>
      simp only
      split_ifs
      · exact hwf
      · exact hwf

theorem WF_run (history : List (Time × Request)) : ∀ {db : DB}, db.WF → (run db history).WF := by
  induction history with
  | nil => intro db h; exact h
  | cons e rest ih =>
    intro db h
    obtain ⟨now, req⟩ := e
    exact ih (WF_serve h now req)

theorem WF_of_reachable {db : DB} (h : Reachable db) : db.WF := by
  obtain ⟨history, rfl⟩ := h
  exact WF_run history WF_empty

/-! ## Task lifecycle -/

theorem tasks_updateUser (db : DB) (userID : Int) (body : Option UpdateUserRequest) :
    (updateUser db userID body).2.tasks = db.tasks := by
  unfold updateUser
  cases body with
  | none => rfl
  | some r =>
    simp only
    cases db.firstUser userID with
    | none => rfl
    | some u =>
      simp only [DB.saveUser]
      split_ifs <;> rfl

theorem tasks_addUser (db : DB) (body : Option AddUserRequest) :
    (addUser db body).2.tasks = db.tasks := by
  unfold addUser
  cases body with
  | none => rfl
  | some r =>
    simp only
    split_ifs <;> rfl

/-- The successful path of `startTask`. -/
theorem startTask_ok (db : DB) (id name : String) (now : Time) (hname : name ≠ "") :
    startTask db id (some ⟨name⟩) now =
      (⟨StatusOK, Body.task ⟨db.nextTaskID, (Atoi id).1, name, now, Time.zero⟩⟩,
        { db with
          tasks := db.tasks ++ [⟨db.nextTaskID, (Atoi id).1, name, now, Time.zero⟩]
          nextTaskID := db.nextTaskID + 1 }) := by
  unfold startTask
  simp only [if_neg hname]
  rfl

/-- The successful path of `stopTask`. -/
theorem stopTask_ok {db : DB} (hwf : db.WF) {t : Task} (ht : t ∈ db.tasks) (now : Time) :
    stopTask db (some ⟨t.ID⟩) now =
      (⟨StatusOK, Body.task { t with End := now }⟩,
        { db with
          tasks := db.tasks.map fun x => if x.ID = t.ID then { t with End := now } else x }) := by
  unfold stopTask
  have h0 : t.ID ≠ 0 := by have := (hwf.2.1 t ht).1; omega
  simp only [if_neg h0, firstTask_of_mem hwf ht]
  rw [saveTask_stored ht]

/-- One request keeps every stored task, with its `ID`, `UserID`, `Name` and `Start`; its
`End` is kept or becomes the clock reading of the request. -/
theorem serve_task {db : DB} (hwf : db.WF) (now : Time) (req : Request) {t : Task}
    (ht : t ∈ db.tasks) :
    ∃ t' ∈ (serve db now req).tasks, t'.ID = t.ID ∧ t'.UserID = t.UserID ∧ t'.Name = t.Name ∧
      t'.Start = t.Start ∧ (t'.End = t.End ∨ t'.End = now) := by
  have keep : ∀ db' : DB, db'.tasks = db.tasks →
      ∃ t' ∈ db'.tasks, t'.ID = t.ID ∧ t'.UserID = t.UserID ∧ t'.Name = t.Name ∧
        t'.Start = t.Start ∧ (t'.End = t.End ∨ t'.End = now) :=
    fun db' h => ⟨t, h ▸ ht, rfl, rfl, rfl, rfl, Or.inl rfl⟩
  cases req with
  | getUsers _ _ _ => exact keep _ rfl
  | getUserTasks _ => exact keep _ rfl
  | deleteUser userID => exact keep _ rfl
  | updateUser userID body => exact keep _ (tasks_updateUser db userID body)
  | addUser body => exact keep _ (tasks_addUser db body)
  | startTask id body =>
    simp only [serve, startTask]
    cases body with
    | none => exact keep _ rfl
    | some r =>
      simp only
      split_ifs
      · exact keep _ rfl
      · exact ⟨t, by simp [DB.createTask, ht], rfl, rfl, rfl, rfl, Or.inl rfl⟩
  | stopTask body =>
    simp only [serve, stopTask]
    cases body with
    | none => exact keep _ rfl
    | some r =>
      simp only
      split_ifs
      · exact keep _ rfl
      · cases h : db.firstTask r.ID with
        | none => exact keep _ rfl
        | some x =>
          simp only
          obtain ⟨hx, _⟩ := firstTask_some h
          rw [saveTask_stored hx]
          by_cases hc : t.ID = x.ID
          · have : t = x := eq_of_mem_of_ID_eq hwf ht hx hc
            subst this
            exact ⟨{ t with End := now }, List.mem_map.2 ⟨t, ht, by simp⟩, rfl, rfl, rfl, rfl,
              Or.inr rfl⟩
          · exact ⟨t, List.mem_map.2 ⟨t, ht, by simp [hc]⟩, rfl, rfl, rfl, rfl, Or.inl rfl⟩

/-- A sequence of requests keeps every stored task, with its `ID`, `UserID`, `Name` and
`Start`; if the clock never reads zero, a non-zero `End` stays non-zero. -/
theorem run_task (history : List (Time × Request)) :
    ∀ {db : DB}, db.WF → ∀ {t : Task}, t ∈ db.tasks →
      ∃ t' ∈ (run db history).tasks, t'.ID = t.ID ∧ t'.UserID = t.UserID ∧ t'.Name = t.Name ∧
        t'.Start = t.Start ∧
        ((∀ e ∈ history, e.1 ≠ Time.zero) → t.End ≠ Time.zero → t'.End ≠ Time.zero) := by
  induction history with
  | nil =>
    intro db _ t ht
    exact ⟨t, ht, rfl, rfl, rfl, rfl, fun _ h => h⟩
  | cons e rest ih =>
    intro db hwf t ht
    obtain ⟨now, req⟩ := e
    obtain ⟨t1, ht1, h1, h2, h3, h4, h5⟩ := serve_task hwf now req ht
    obtain ⟨t2, ht2, k1, k2, k3, k4, k5⟩ := ih (WF_serve hwf now req) ht1
    refine ⟨t2, ht2, k1.trans h1, k2.trans h2, k3.trans h3, k4.trans h4, ?_⟩
    intro hclock hend
    apply k5 (fun e he => hclock e (List.mem_cons_of_mem _ he))
    rcases h5 with h5 | h5
    · rw [h5]; exact hend
    · rw [h5]; exact hclock (now, req) (List.mem_cons_self _ _)

/-- C6: on a reachable store, `startTask` with a non-empty name answers 200 with a task
whose `End` is the zero time, whose `Name` is the requested name, whose `UserID` is what
`strconv.Atoi` reads from the path parameter, and whose `Start` is the clock reading; and
after any further requests, `stopTask` on that task's id at a reading not before the start
answers 200 with a task whose `End` is that reading, not before `Start`, and whose `ID`,
`UserID`, `Name` and `Start` are those of the started task. -/
theorem startTask_then_stopTask (db : DB) (hdb : Reachable db) (id name : String)
    (hname : name ≠ "") (now : Time) :
    ∃ task, (startTask db id (some ⟨name⟩) now).1 = ⟨StatusOK, Body.task task⟩ ∧
      task.End = Time.zero ∧ task.Name = name ∧ task.UserID = (Atoi id).1 ∧
      (∀ userID, Atoi id = (userID, none) → task.UserID = userID) ∧ task.Start = now ∧
      ∀ (history : List (Time × Request)) (later : Time), now.ns ≤ later.ns →
        ∃ stopped,
          (stopTask (run (startTask db id (some ⟨name⟩) now).2 history) (some ⟨task.ID⟩)
            later).1 = ⟨StatusOK, Body.task stopped⟩ ∧
          stopped.End = later ∧ stopped.Start.ns ≤ stopped.End.ns ∧ stopped.ID = task.ID ∧
          stopped.UserID = task.UserID ∧ stopped.Name = task.Name ∧
          stopped.Start = task.Start := by
  have hwf := WF_of_reachable hdb
  rw [startTask_ok db id name now hname]
  refine ⟨_, rfl, rfl, rfl, rfl, fun userID h => by rw [h], rfl, ?_⟩
  intro history later hle
  have hwf1 : DB.WF { db with
      tasks := db.tasks ++ [⟨db.nextTaskID, (Atoi id).1, name, now, Time.zero⟩]
      nextTaskID := db.nextTaskID + 1 } := by
    have := WF_startTask hwf id (some ⟨name⟩) now
    rwa [startTask_ok db id name now hname] at this
  obtain ⟨t2, ht2, k1, k2, k3, k4, _⟩ := run_task history hwf1
    (t := ⟨db.nextTaskID, (Atoi id).1, name, now, Time.zero⟩) (by simp)
  have hstop := stopTask_ok (WF_run history hwf1) ht2 later
  simp only at k1 k2 k3 k4
  rw [k1] at hstop
  refine ⟨⟨db.nextTaskID, t2.UserID, t2.Name, t2.Start, later⟩, ?_, rfl, ?_, rfl, k2, k3, k4⟩
  · simp only; rw [hstop]
  · simp only [k4]; exact hle

/-- C6 on the empty store: user 1 starts "writing", and stops it one hour later. -/
theorem startTask_then_stopTask_witness :
    Reachable DB.empty ∧
      startTask DB.empty "1" (some ⟨"writing"⟩) ⟨63842000000000000000⟩ =
        (⟨200, Body.task ⟨1, 1, "writing", ⟨63842000000000000000⟩, Time.zero⟩⟩,
          ⟨[], [⟨1, 1, "writing", ⟨63842000000000000000⟩, Time.zero⟩], 1, 2⟩) ∧
      stopTask ⟨[], [⟨1, 1, "writing", ⟨63842000000000000000⟩, Time.zero⟩], 1, 2⟩
          (some ⟨1⟩) ⟨63842003600000000000⟩ =
        (⟨200, Body.task ⟨1, 1, "writing", ⟨63842000000000000000⟩, ⟨63842003600000000000⟩⟩⟩,
          stoppedDB) ∧
      ∃ task, (startTask DB.empty "1" (some ⟨"writing"⟩) ⟨63842000000000000000⟩).1 =
          ⟨StatusOK, Body.task task⟩ ∧
        task.End = Time.zero ∧ task.Name = "writing" ∧ task.UserID = (Atoi "1").1 ∧
        (∀ userID, Atoi "1" = (userID, none) → task.UserID = userID) ∧
        task.Start = ⟨63842000000000000000⟩ ∧
        ∀ (history : List (Time × Request)) (later : Time),
          (⟨63842000000000000000⟩ : Time).ns ≤ later.ns →
          ∃ stopped,
            (stopTask (run (startTask DB.empty "1" (some ⟨"writing"⟩)
              ⟨63842000000000000000⟩).2 history) (some ⟨task.ID⟩) later).1 =
                ⟨StatusOK, Body.task stopped⟩ ∧
            stopped.End = later ∧ stopped.Start.ns ≤ stopped.End.ns ∧
            stopped.ID = task.ID ∧ stopped.UserID = task.UserID ∧
            stopped.Name = task.Name ∧ stopped.Start = task.Start :=
  ⟨⟨[], rfl⟩, by decide, by decide,
    startTask_then_stopTask DB.empty ⟨[], rfl⟩ "1" "writing" (by decide)
      ⟨63842000000000000000⟩⟩

/-- What `stopTask` writes when no stored task has the requested id: 400 from the binding
check for id 0, otherwise 500 with the text "Task not found"; the store is unchanged. -/
theorem stopTask_not_found (db : DB) (id : Int) (now : Time)
    (hmissing : ∀ t ∈ db.tasks, t.ID ≠ id) :
    stopTask db (some ⟨id⟩) now =
      (if id = 0 then ⟨StatusBadRequest, Body.bindError⟩
        else ⟨StatusInternalServerError, Body.error "Task not found"⟩, db) := by
  unfold stopTask
  simp only
  split_ifs with h0
  · rfl
  · rw [firstTask_none hmissing]

/-- C7 fails: in the store with the single task 1, stopping task 0 answers 400 (the binding
check rejects a zero id) and stopping task 5 answers 500; neither answers 404. -/
theorem stopTask_missing_counterexample :
    stoppedDB.firstTask 0 = none ∧ stoppedDB.firstTask 5 = none ∧
      stopTask stoppedDB (some ⟨0⟩) ⟨63842007200000000000⟩ =
        (⟨400, Body.bindError⟩, stoppedDB) ∧
      stopTask stoppedDB (some ⟨5⟩) ⟨63842007200000000000⟩ =
        (⟨500, Body.error "Task not found"⟩, stoppedDB) ∧
      (stopTask stoppedDB (some ⟨0⟩) ⟨63842007200000000000⟩).1.status ≠ StatusNotFound ∧
      (stopTask stoppedDB (some ⟨5⟩) ⟨63842007200000000000⟩).1.status ≠ StatusNotFound := by
  decide

/-- C7 as amended: when no stored task has the requested id, `stopTask` fails (an error
status, no task in the body) and leaves the store unchanged; for id 0 the failure is the 400
of the binding check. -/
theorem stopTask_missing (db : DB) (id : Int) (now : Time)
    (hmissing : ∀ t ∈ db.tasks, t.ID ≠ id) :
    (stopTask db (some ⟨id⟩) now).2 = db ∧
      400 ≤ (stopTask db (some ⟨id⟩) now).1.status ∧
      (∀ task, (stopTask db (some ⟨id⟩) now).1.body ≠ Body.task task) ∧
      (id = 0 → (stopTask db (some ⟨id⟩) now).1 = ⟨StatusBadRequest, Body.bindError⟩) := by
  rw [stopTask_not_found db id now hmissing]
  refine ⟨rfl, ?_, ?_, ?_⟩
  · simp only; split_ifs <;> decide
  · intro task; simp only; split_ifs <;> simp
  · intro h; simp only [if_pos h]

/-- C7 as amended, on the store with the single task 1 and the request to stop task 5. -/
theorem stopTask_missing_witness :
    (∀ t ∈ stoppedDB.tasks, t.ID ≠ 5) ∧
      (stopTask stoppedDB (some ⟨5⟩) ⟨63842007200000000000⟩).2 = stoppedDB ∧
      400 ≤ (stopTask stoppedDB (some ⟨5⟩) ⟨63842007200000000000⟩).1.status ∧
      (∀ task,
        (stopTask stoppedDB (some ⟨5⟩) ⟨63842007200000000000⟩).1.body ≠ Body.task task) ∧
      ((5 : Int) = 0 → (stopTask stoppedDB (some ⟨5⟩) ⟨63842007200000000000⟩).1 =
        ⟨StatusBadRequest, Body.bindError⟩) :=
  ⟨by decide, stopTask_missing stoppedDB 5 ⟨63842007200000000000⟩ (by decide)⟩

/-- C8, what the code does for a user id that is not stored: `updateUser` (with a body that
decodes) answers 404 "User not found", while `deleteUser` answers 200 "User deleted"
instead of failing; both leave the store unchanged. -/
theorem missing_user_update_delete (db : DB) (userID : Int) (req : UpdateUserRequest)
    (hmissing : ∀ u ∈ db.users, u.ID ≠ userID) :
    updateUser db userID (some req) = (⟨StatusNotFound, Body.error "User not found"⟩, db) ∧
      deleteUser db userID = (⟨StatusOK, Body.message "User deleted"⟩, db) := by
  constructor
  · have h : db.firstUser userID = none := by
      unfold DB.firstUser
      rw [List.find?_eq_none]
      intro u hu
      simpa using hmissing u hu
    unfold updateUser
    simp only [h]
  · unfold deleteUser DB.deleteUser
    have h : (db.users.filter fun u => decide (u.ID ≠ userID)) = db.users := by
      rw [List.filter_eq_self]
      intro u hu
      simpa using hmissing u hu
    rw [h]

/-- C8 on user id 7 in the store with users 1 and 2: `deleteUser` answers 200. -/
theorem deleteUser_missing_answers_ok :
    (∀ u ∈ reportDB.users, u.ID ≠ 7) ∧
      updateUser reportDB 7 (some ⟨"EF0000000"⟩) =
        (⟨404, Body.error "User not found"⟩, reportDB) ∧
      deleteUser reportDB 7 = (⟨200, Body.message "User deleted"⟩, reportDB) :=
  ⟨by decide, missing_user_update_delete reportDB 7 ⟨"EF0000000"⟩ (by decide)⟩

/-- C9: on a reachable store (1) after any further requests whose clock readings are not the
zero time, a task with `End` set is still stored and every stored task with its id has `End`
set; (2) `stopTask` on a task with `End` set answers 200 with that task, `End` replaced by
the clock reading, and rewrites that row; (3) `startTask` with a non-empty name appends one
task with the zero `End` and an id no stored task has, and leaves the stored tasks as they
are. -/
theorem stopped_never_running (db : DB) (hdb : Reachable db) :
    (∀ (history : List (Time × Request)), (∀ e ∈ history, e.1 ≠ Time.zero) →
        ∀ t ∈ db.tasks, t.End ≠ Time.zero →
          (∃ t' ∈ (run db history).tasks, t'.ID = t.ID) ∧
            ∀ t' ∈ (run db history).tasks, t'.ID = t.ID → t'.End ≠ Time.zero) ∧
      (∀ t ∈ db.tasks, t.End ≠ Time.zero → ∀ now : Time,
        stopTask db (some ⟨t.ID⟩) now =
          (⟨StatusOK, Body.task { t with End := now }⟩,
            { db with
              tasks := db.tasks.map fun x =>
                if x.ID = t.ID then { t with End := now } else x })) ∧
      ∀ (id name : String) (now : Time), name ≠ "" →
        ∃ task, startTask db id (some ⟨name⟩) now =
            (⟨StatusOK, Body.task task⟩,
              { db with tasks := db.tasks ++ [task], nextTaskID := db.nextTaskID + 1 }) ∧
          task.End = Time.zero ∧ ∀ t ∈ db.tasks, t.ID ≠ task.ID := by
  have hwf := WF_of_reachable hdb
  refine ⟨?_, ?_, ?_⟩
  · intro history hclock t ht hend
    obtain ⟨t2, ht2, k1, _, _, _, k5⟩ := run_task history hwf ht
    refine ⟨⟨t2, ht2, k1⟩, ?_⟩
    intro t3 ht3 h3
    have : t3 = t2 := eq_of_mem_of_ID_eq (WF_run history hwf) ht3 ht2 (h3.trans k1.symm)
    rw [this]
    exact k5 hclock hend
  · intro t ht _ now
    exact stopTask_ok hwf ht now
  · intro id name now hname
    refine ⟨_, startTask_ok db id name now hname, rfl, ?_⟩
    intro t ht
    have := (hwf.2.1 t ht).2
    simp only
    omega

/-- C9 on the store reached by starting and stopping one task: stopping it again two hours
after the start overwrites `End`. -/
theorem stopped_never_running_witness :
    Reachable stoppedDB ∧
      stopTask stoppedDB (some ⟨1⟩) ⟨63842007200000000000⟩ =
        (⟨200, Body.task ⟨1, 1, "writing", ⟨63842000000000000000⟩, ⟨63842007200000000000⟩⟩⟩,
          { stoppedDB with
            tasks := [⟨1, 1, "writing", ⟨63842000000000000000⟩, ⟨63842007200000000000⟩⟩] }) :=
  ⟨⟨sampleHistory, by decide⟩,
    (stopped_never_running stoppedDB ⟨sampleHistory, by decide⟩).2.1
      ⟨1, 1, "writing", ⟨63842000000000000000⟩, ⟨63842003600000000000⟩⟩
      (by decide) (by decide) ⟨63842007200000000000⟩⟩

end TaskService
